import Mathlib

/-!
Verification of the esloss-core format-translation layer.

Shallow embedding of `core/parsers.py` and `core/input.py` from the
esloss-core repository, together with theorems settling the frozen claims
about the natural-language specification of those modules.

Conventions of the embedding:
* Python strings are Lean `String`s; Python string methods that the source
  uses (`str.split(' ')`, `str.split(',')`, `str.split()`, `str.replace`)
  are re-implemented structurally over `List Char` so that concrete
  evaluation reduces in the kernel, with exactly Python's semantics
  (`'a  b'.split(' ') == ['a', '', 'b']`, `''.split(' ') == ['']`, ...).
* A pandas DataFrame is modelled as `DFrame`: a named index (list of row
  labels) plus an ordered list of named columns, each column an ordered
  list of cells; a cell is `Option String` (`none` models NaN/NULL).
* A `configparser.ConfigParser` is modelled as `Config`: an ordered list
  of named sections, each an ordered association list of key/value pairs.
* Fallible Python code (KeyError and friends) is modelled with `Except`.
* Functions kept pure in the source are pure here; the one function whose
  caller-visible mutation matters (`parse_calculation` reads its argument,
  `assemble_calculation_input` rewrites it) returns the final state of the
  config object passed by the caller alongside its result.
-/

deriving instance DecidableEq for Except

/-! ## Python string primitives -/

/-- The six characters Python's `str.split()` (no argument) treats as
whitespace separators. -/
def isPyWs (c : Char) : Bool :=
  c == ' ' || c == '\t' || c == '\n' || c == '\r' || c == '\x0b' || c == '\x0c'

/-- Core of Python's `str.split(sep)` for a one-character separator:
splits at every occurrence of `sep`, keeping empty fields, so that
`n` separators yield `n + 1` fields. -/
def pySplitCharAux (sep : Char) : List Char → List (List Char)
  | [] => [[]]
  | c :: rest =>
    if c == sep then [] :: pySplitCharAux sep rest
    else
      match pySplitCharAux sep rest with
      | [] => [[c]]
      | h :: t => (c :: h) :: t

/-- Python's `s.split(sep)` for a one-character separator `sep`. -/
def pySplitChar (sep : Char) (s : String) : List String :=
  (pySplitCharAux sep s.data).map (fun l => ⟨l⟩)

/-- Core of Python's whitespace `str.split()`: the first argument
accumulates the current (reversed) token. No empty tokens are produced and
any run of whitespace separates. -/
def pySplitWsAux : List Char → List Char → List (List Char)
  | cur, [] => if cur.isEmpty then [] else [cur.reverse]
  | cur, c :: rest =>
    if isPyWs c then
      if cur.isEmpty then pySplitWsAux [] rest
      else cur.reverse :: pySplitWsAux [] rest
    else pySplitWsAux (c :: cur) rest

/-- Python's argument-less `s.split()`: whitespace runs separate, no empty
tokens. -/
def pySplitWs (s : String) : List String :=
  (pySplitWsAux [] s.data).map (fun l => ⟨l⟩)

/-- Core of Python's `str.replace`: replaces every non-overlapping
occurrence of `pat` left to right. The `Nat` argument is recursion fuel,
always instantiated with the length of the subject string (an upper bound
on the number of steps), keeping the definition structurally recursive. -/
def pyReplaceAux (pat repl : List Char) : Nat → List Char → List Char
  | _, [] => []
  | 0, s => s
  | fuel + 1, c :: rest =>
    if pat.isPrefixOf (c :: rest) then
      repl ++ pyReplaceAux pat repl fuel ((c :: rest).drop pat.length)
    else
      c :: pyReplaceAux pat repl fuel rest

/-- Python's `s.replace(pat, repl)` for a non-empty pattern. -/
def pyReplace (s pat repl : String) : String :=
  if pat.data.isEmpty then s
  else ⟨pyReplaceAux pat.data repl.data s.data.length s.data⟩

/-- Last path component, as `pathlib.Path(v).name` on a POSIX path. -/
def pyBasename (p : String) : String :=
  (pySplitChar '/' p).getLastD ""

/-! ## Association lists (Python `dict` operations the source relies on) -/

/-- First value stored under key `k`, as `d[k]` / `d.get(k)` on a mapping
with unique keys. -/
def assocFind (l : List (String × String)) (k : String) : Option String :=
  (l.find? (fun kv => kv.1 == k)).map (·.2)

/-- `d.pop(k)`: the value under `k` together with the mapping without that
entry, or `none` when the key is absent (Python raises `KeyError`). -/
def assocPop (l : List (String × String)) (k : String) :
    Option (String × List (String × String)) :=
  match assocFind l k with
  | none => none
  | some v => some (v, l.filter (fun kv => !(kv.1 == k)))

/-- `d.pop(k, None)`: like `assocPop` but total, yielding `none` as the
value when the key is absent. -/
def assocPopD (l : List (String × String)) (k : String) :
    Option String × List (String × String) :=
  match assocPop l k with
  | none => (none, l)
  | some (v, rest) => (some v, rest)

/-- Python `dict` insertion: an existing key keeps its position and gets
the new value, a new key is appended. Folding this over a list reproduces
`dict(pairs)` / `{**a, **b}` ordering semantics. -/
def dictInsert (l : List (String × String)) (kv : String × String) :
    List (String × String) :=
  if l.any (fun p => p.1 == kv.1) then
    l.map (fun p => if p.1 == kv.1 then (p.1, kv.2) else p)
  else l ++ [kv]

/-- `dict(pairs)` built left to right with Python update semantics. -/
def dictOf (pairs : List (String × String)) : List (String × String) :=
  pairs.foldl dictInsert []

/-! ## `core/parsers.py`: the static name-mapping tables -/

/-- `ASSETS_COLS_MAPPING` of `core/parsers.py`: external (engine CSV)
column name to internal (datamodel) column name, in declaration order. -/
def ASSETS_COLS_MAPPING : List (String × String) :=
  [("taxonomy", "taxonomy_concept"),
   ("number", "buildingcount"),
   ("contents", "contentsvalue"),
   ("day", "dayoccupancy"),
   ("night", "nightoccupancy"),
   ("transit", "transitoccupancy"),
   ("structural", "structuralvalue"),
   ("nonstructural", "nonstructuralvalue"),
   ("business_interruption", "businessinterruptionvalue")]

/-- The `lonlat` local mapping of `parse_assets`. -/
def lonlatMapping : List (String × String) :=
  [("lon", "longitude"), ("lat", "latitude")]

/-- `VULNERABILITY_FK_MAPPING` of `core/parsers.py`. -/
def VULNERABILITY_FK_MAPPING : List (String × String) :=
  [("structural_vulnerability_file", "_structuralvulnerabilitymodel_oid"),
   ("contents_vulnerability_file", "_contentsvulnerabilitymodel_oid"),
   ("occupants_vulnerability_file", "_occupantsvulnerabilitymodel_oid"),
   ("nonstructural_vulnerability_file",
    "_nonstructuralvulnerabilitymodel_oid"),
   ("business_interruption_vulnerability_file",
    "_businessinterruptionvulnerabilitymodel_oid")]

/-- `FRAGILITY_FK_MAPPING` of `core/parsers.py`. -/
def FRAGILITY_FK_MAPPING : List (String × String) :=
  [("structural_fragility_file", "_structuralfragilitymodel_oid"),
   ("contents_fragility_file", "_contentsfragilitymodel_oid"),
   ("nonstructural_fragility_file", "_nonstructuralfragilitymodel_oid"),
   ("business_interruption_fragility_file",
    "_businessinterruptionfragilitymodel_oid")]

/-! ## DataFrame model -/

/-- A cell of a table: `none` models a pandas missing value (NaN). -/
abbrev Cell := Option String

/-- A named DataFrame column. -/
structure Col where
  name : String
  cells : List Cell
deriving DecidableEq, Repr

/-- A pandas DataFrame: named row index plus ordered named columns. -/
structure DFrame where
  indexName : String
  index : List String
  cols : List Col
deriving DecidableEq, Repr

/-- The column names of a frame, in order. -/
def DFrame.colNames (df : DFrame) : List String := df.cols.map (·.name)

/-! ## `parse_assets` (`core/parsers.py`, lines 36-64) -/

/-- The rename dictionary `parse_assets` builds:
`{k: v for k, v in {**ASSETS_COLS_MAPPING, **lonlat}.items()
 if k in df and v not in df}` — a pair takes part in the rename only when
the external name is a column of the frame and the internal name is not. -/
def renameDict (df : DFrame) : List (String × String) :=
  (ASSETS_COLS_MAPPING ++ lonlatMapping).filter
    (fun kv => (df.colNames).contains kv.1 && !((df.colNames).contains kv.2))

/-- `df.rename(columns=m)` on a single column: the first rename entry whose
key equals the column's name applies; otherwise the name is unchanged. -/
def applyRename (m : List (String × String)) (c : Col) : Col :=
  match m.find? (fun kv => kv.1 == c.name) with
  | some kv => { c with name := kv.2 }
  | none => c

/-- `valid_cols` of `parse_assets`:
`list(ASSETS_COLS_MAPPING.values()) + tagnames + list(lonlat.values())`. -/
def valid_cols (tagnames : List String) : List String :=
  ASSETS_COLS_MAPPING.map (·.2) ++ tagnames ++ ["longitude", "latitude"]

/-- `parse_assets` of `core/parsers.py` on the frame read from the CSV
(`pd.read_csv(file, index_col='id')` is the identity on our `DFrame`
model, with the `id` column as index): rename the recognized columns,
then drop every column not in `valid_cols`
(`df.drop(columns=df.columns.difference(valid_cols))` keeps the surviving
columns in their original order). -/
def parse_assets (df : DFrame) (tagnames : List String) : DFrame :=
  let m := renameDict df
  let renamed := df.cols.map (applyRename m)
  { df with
    cols := renamed.filter (fun c => (valid_cols tagnames).contains c.name) }

/-! ### Claim C3: idempotence of the asset decode -/

/-- C3 (confirmed). For every input table whose columns already use the
internal names and contain no external name from the asset bijection or
the `lon`/`lat` pair, `parse_assets` returns the table unchanged: the
rename applies only when the external name is present, and no valid column
is dropped. In particular a table already containing `taxonomy_concept` is
left untouched even though `taxonomy` is absent. -/
theorem parse_assets_idempotent_internal (df : DFrame) (tagnames : List String)
    (h1 : ∀ c ∈ df.cols, c.name ∈ valid_cols tagnames)
    (h2 : ∀ c ∈ df.cols,
      c.name ∉ (ASSETS_COLS_MAPPING ++ lonlatMapping).map (·.1)) :
    parse_assets df tagnames = df := by
  have hren : renameDict df = [] := by
    apply List.filter_eq_nil_iff.mpr
    intro kv hkv
    simp only [Bool.and_eq_true, Bool.not_eq_true', not_and]
    intro hcontains
    exfalso
    have h1mem : kv.1 ∈ df.colNames := List.mem_of_elem_eq_true hcontains
    rcases List.mem_map.mp h1mem with ⟨c, hc, hcn⟩
    have hfst : kv.1 ∈ (ASSETS_COLS_MAPPING ++ lonlatMapping).map (·.1) :=
      List.mem_map_of_mem (·.1) hkv
    rw [← hcn] at hfst
    exact h2 c hc hfst
  have hmapid : df.cols.map (applyRename (renameDict df)) = df.cols := by
    rw [hren]
    have hid : applyRename [] = fun c => c := funext (fun c => rfl)
    rw [hid]
    simp
  have hfilter :
      df.cols.filter (fun c => (valid_cols tagnames).contains c.name)
        = df.cols := by
    apply List.filter_eq_self.mpr
    intro c hc
    exact List.elem_eq_true_of_mem (h1 c hc)
  show DFrame.mk df.indexName df.index
      ((df.cols.map (applyRename (renameDict df))).filter
        (fun c => (valid_cols tagnames).contains c.name)) = df
  rw [hmapid, hfilter]

/-- Witness for C3: the claim's own example, a one-column table already
holding `taxonomy_concept` (with `taxonomy` absent), is returned
unchanged. -/
theorem parse_assets_idempotent_internal_witness :
    parse_assets
      ⟨"id", ["a1"], [⟨"taxonomy_concept", [some "MUR"]⟩]⟩ [] =
      ⟨"id", ["a1"], [⟨"taxonomy_concept", [some "MUR"]⟩]⟩ :=
  parse_assets_idempotent_internal _ _
    (by decide) (by decide)

/-! ### Claim C8: the surviving-column set of the asset decode -/

/-- C8, counterexample. The claim states the decoded columns are a subset
of {internal mapped value names, declared tag names, `lon`, `lat`}. On the
code the location columns survive under their internal names
`longitude`/`latitude` (the code's `valid_cols` uses `lonlat.values()`),
so a table with columns `lon`, `lat`, `taxonomy_concept` and no declared
tags decodes to a table whose column `longitude` lies outside the claimed
set. -/
theorem parse_assets_columns_lonlat_cex :
    ∃ c ∈ (parse_assets
        ⟨"id", ["a1"],
          [⟨"lon", [some "7.4"]⟩, ⟨"lat", [some "46.9"]⟩,
           ⟨"taxonomy_concept", [some "MUR"]⟩]⟩ []).cols,
      c.name ∉ ASSETS_COLS_MAPPING.map (·.2) ++ ([] : List String)
        ++ ["lon", "lat"] := by
  decide

/-- C8 as amended (proved): for every input table and declared tag-name
list, the columns returned by `parse_assets` are a subset of {the internal
mapped value column names, the declared tag names, `longitude`,
`latitude`}; every unmapped, undeclared column is silently dropped and the
decode is total, never failing because of extra columns. -/
theorem parse_assets_columns_subset_valid (df : DFrame)
    (tagnames : List String) :
    ∀ c ∈ (parse_assets df tagnames).cols, c.name ∈ valid_cols tagnames := by
  intro c hc
  have hm : c ∈ (df.cols.map (applyRename (renameDict df))).filter
      (fun c => (valid_cols tagnames).contains c.name) := hc
  exact List.mem_of_elem_eq_true (List.mem_filter.mp hm).2

/-! ## `parse_vulnerability` (`core/parsers.py`, lines 107-145) -/

/-- One decoded loss-ratio entry (`fun['lossratios']` element). -/
structure LossRatioPoint where
  intensitymeasurelevel : String
  mean : String
  coefficientofvariation : String
deriving DecidableEq, Repr

/-- A `vulnerabilityFunction` XML element after namespace stripping: its
`id`/`dist` attributes, the `imt` attribute of its `imls` child and the
texts of its `imls`/`meanLRs`/`covLRs` children. -/
structure VulnFunctionElem where
  id : String
  dist : String
  imt : String
  imlsText : String
  meanLRsText : String
  covLRsText : String
deriving DecidableEq, Repr

/-- A vulnerability XML document after namespace stripping: the
`vulnerabilityModel` attributes, its `description` text and its
`vulnerabilityFunction` children in document order. -/
structure VulnDoc where
  assetCategory : String
  lossCategory : String
  id : String
  description : String
  functions : List VulnFunctionElem
deriving DecidableEq, Repr

/-- A decoded vulnerability function (`fun` dict of the source). -/
structure VulnFunction where
  taxonomy_concept : String
  distribution : String
  intensitymeasuretype : String
  lossratios : List LossRatioPoint
deriving DecidableEq, Repr

/-- The decoded `model` dict of `parse_vulnerability`. -/
structure VulnModel where
  assetcategory : String
  losscategory : String
  publicid : String
  description : String
  vulnerabilityfunctions : List VulnFunction
deriving DecidableEq, Repr

/-- Loop body of `parse_vulnerability` for one `vulnerabilityFunction`:
`imls = vF.find('imls').text.split(' ')` (and likewise `meanLRs`,
`covLRs`) splits on single space characters; the `for i, m, c in
zip(imls, meanLRs, covLRs)` loop is Python's truncating three-way zip. -/
def parseVulnFunction (vF : VulnFunctionElem) : VulnFunction :=
  let imls := pySplitChar ' ' vF.imlsText
  let meanLRs := pySplitChar ' ' vF.meanLRsText
  let covLRs := pySplitChar ' ' vF.covLRsText
  { taxonomy_concept := vF.id
    distribution := vF.dist
    intensitymeasuretype := vF.imt
    lossratios :=
      List.zipWith3 (fun i m c => LossRatioPoint.mk i m c) imls meanLRs covLRs }

/-- `parse_vulnerability` of `core/parsers.py`. The only exceptions the
Python body can raise come from absent elements or attributes, which the
structured `VulnDoc` input rules out; the body contains no check at all on
the three token counts, so on a structurally complete document the result
is always `Except.ok`. -/
def parse_vulnerability (doc : VulnDoc) : Except String VulnModel :=
  Except.ok
    { assetcategory := doc.assetCategory
      losscategory := doc.lossCategory
      publicid := doc.id
      description := doc.description
      vulnerabilityfunctions := doc.functions.map parseVulnFunction }

/-- Length of a truncating three-way zip. -/
theorem length_zipWith3 {α β γ δ : Type} (f : α → β → γ → δ) :
    ∀ (la : List α) (lb : List β) (lc : List γ),
      (List.zipWith3 f la lb lc).length = min (min la.length lb.length) lc.length
  | [], _, _ => by simp [List.zipWith3]
  | _ :: _, [], _ => by simp [List.zipWith3]
  | _ :: _, _ :: _, [] => by simp [List.zipWith3]
  | a :: la, b :: lb, c :: lc => by
    simp only [List.zipWith3, List.length_cons, length_zipWith3 f la lb lc]
    omega

/-! ### Claim C1: no FormatError on token-count mismatch -/

/-- C1, counterexample. The claim's own example: a function with
`imls="0.1 0.2 0.3"` (3 tokens) and `meanLRs="0.1 0.2"` (2 tokens) does
not raise any error — `parse_vulnerability` returns a decoded model whose
loss-ratio list was silently truncated to 2 entries by the positional
`zip`, so the three token arrays also do not have equal length in the
decoded result. -/
theorem parse_vulnerability_mismatch_cex :
    parse_vulnerability
        ⟨"buildings", "structural", "m1", "model one",
          [⟨"f1", "LN", "PGA", "0.1 0.2 0.3", "0.1 0.2", "0.0 0.0"⟩]⟩
      = Except.ok
          ⟨"buildings", "structural", "m1", "model one",
            [⟨"f1", "LN", "PGA",
              [⟨"0.1", "0.1", "0.0"⟩, ⟨"0.2", "0.2", "0.0"⟩]⟩]⟩ ∧
    (pySplitChar ' ' "0.1 0.2 0.3").length = 3 ∧
    (pySplitChar ' ' "0.1 0.2").length = 2 := by decide

/-- C1 as amended (proved): `parse_vulnerability` performs no length
validation: it succeeds on every structurally complete document, and for
every `vulnerabilityFunction` the decoded `lossratios` list has length
equal to the minimum of the three token counts — the three arrays are
silently truncated to the shortest rather than rejected with a
FormatError. -/
theorem parse_vulnerability_no_length_check (doc : VulnDoc) :
    ∃ m, parse_vulnerability doc = Except.ok m ∧
      m.vulnerabilityfunctions = doc.functions.map parseVulnFunction ∧
      ∀ vF ∈ doc.functions,
        (parseVulnFunction vF).lossratios.length =
          min (min (pySplitChar ' ' vF.imlsText).length
              (pySplitChar ' ' vF.meanLRsText).length)
            (pySplitChar ' ' vF.covLRsText).length := by
  refine ⟨_, rfl, rfl, ?_⟩
  intro vF _
  exact length_zipWith3 _ _ _ _

/-! ### Claim C4: tokenization of the loss-ratio texts -/

/-- Join a list of fields with a separator character between consecutive
fields: the inverse of splitting on that character. -/
def joinSepChar (sep : Char) : List (List Char) → List Char
  | [] => []
  | [x] => x
  | x :: y :: t => x ++ sep :: joinSepChar sep (y :: t)

/-- Splitting never produces an empty field list. -/
theorem pySplitCharAux_ne_nil (sep : Char) (l : List Char) :
    pySplitCharAux sep l ≠ [] := by
  cases l with
  | nil => simp [pySplitCharAux]
  | cons c rest =>
    simp only [pySplitCharAux]
    by_cases h : (c == sep) = true
    · simp [h]
    · simp only [h, if_false]
      cases hr : pySplitCharAux sep rest <;> simp

/-- Prepending a character to the first field commutes with joining. -/
theorem joinSepChar_cons_head (sep c : Char) (h0 : List Char)
    (t0 : List (List Char)) :
    joinSepChar sep ((c :: h0) :: t0) = c :: joinSepChar sep (h0 :: t0) := by
  cases t0 <;> rfl

/-- Joining the fields of a single-character split with that separator
reconstructs the original character list. -/
theorem joinSepChar_pySplitCharAux (sep : Char) :
    ∀ l : List Char, joinSepChar sep (pySplitCharAux sep l) = l
  | [] => rfl
  | c :: rest => by
    have ih := joinSepChar_pySplitCharAux sep rest
    simp only [pySplitCharAux]
    by_cases h : (c == sep) = true
    · rw [if_pos h]
      cases hr : pySplitCharAux sep rest with
      | nil => exact absurd hr (pySplitCharAux_ne_nil sep rest)
      | cons h0 t0 =>
        have hc : c = sep := beq_iff_eq.mp h
        rw [hr] at ih
        show sep :: joinSepChar sep (h0 :: t0) = c :: rest
        rw [ih, hc]
    · rw [if_neg h]
      cases hr : pySplitCharAux sep rest with
      | nil => exact absurd hr (pySplitCharAux_ne_nil sep rest)
      | cons h0 t0 =>
        rw [hr] at ih
        rw [joinSepChar_cons_head, ih]

/-- No field of a single-character split contains the separator. -/
theorem pySplitCharAux_no_sep (sep : Char) :
    ∀ l : List Char, ∀ f ∈ pySplitCharAux sep l, sep ∉ f
  | [] => by
    intro f hf
    simp [pySplitCharAux] at hf
    simp [hf]
  | c :: rest => by
    intro f hf
    have ih := pySplitCharAux_no_sep sep rest
    simp only [pySplitCharAux] at hf
    by_cases h : (c == sep) = true
    · rw [if_pos h] at hf
      rcases List.mem_cons.mp hf with h1 | h1
      · simp [h1]
      · exact ih f h1
    · rw [if_neg h] at hf
      cases hr : pySplitCharAux sep rest with
      | nil => exact absurd hr (pySplitCharAux_ne_nil sep rest)
      | cons h0 t0 =>
        rw [hr] at hf
        rcases List.mem_cons.mp hf with h1 | h1
        · subst h1
          intro hmem
          rcases List.mem_cons.mp hmem with h2 | h2
          · exact h (beq_iff_eq.mpr h2.symm)
          · exact ih h0 (hr ▸ List.mem_cons_self h0 t0) h2
        · exact ih f (hr ▸ List.mem_cons_of_mem h0 h1)

/-- Join a list of token strings with a single space between consecutive
tokens. -/
def joinSpace (l : List String) : String :=
  ⟨joinSepChar ' ' (l.map String.data)⟩

/-- The defining property of the source's `text.split(' ')` tokenization:
joining the tokens with single spaces reconstructs the text, and no token
contains a space. (Empty tokens are possible: they arise exactly at runs
of consecutive spaces and at a leading or trailing space.) -/
theorem pySplitChar_space_spec (s : String) :
    joinSpace (pySplitChar ' ' s) = s ∧
      ∀ t ∈ pySplitChar ' ' s, ' ' ∉ t.data := by
  constructor
  · show String.mk (joinSepChar ' '
      (((pySplitCharAux ' ' s.data).map (fun l => String.mk l)).map
        String.data)) = s
    rw [List.map_map]
    have : ((fun (l : List Char) => (String.mk l).data)) = id :=
      funext (fun l => rfl)
    show String.mk (joinSepChar ' '
      ((pySplitCharAux ' ' s.data).map fun l => (String.mk l).data)) = s
    rw [this, List.map_id, joinSepChar_pySplitCharAux]
  · intro t ht
    rcases List.mem_map.mp ht with ⟨f, hf, hft⟩
    have := pySplitCharAux_no_sep ' ' s.data f hf
    rw [← hft]
    exact this

/-- C4, counterexample. The claim states any run of whitespace acts as one
separator and produces no empty tokens. The code splits on every single
space character (`.split(' ')`), so an `imls` text `"0.1  0.3"` containing
a run of two spaces decodes — without error — into three tokens whose
middle token is the empty string, which appears as an empty
`intensitymeasurelevel` in the zipped loss ratios. -/
theorem parse_vulnerability_ws_run_cex :
    parse_vulnerability
        ⟨"buildings", "structural", "m2", "model two",
          [⟨"f1", "LN", "PGA", "0.1  0.3", "0.0 0.0 0.0", "1 1 1"⟩]⟩
      = Except.ok
          ⟨"buildings", "structural", "m2", "model two",
            [⟨"f1", "LN", "PGA",
              [⟨"0.1", "0.0", "1"⟩, ⟨"", "0.0", "1"⟩,
               ⟨"0.3", "0.0", "1"⟩]⟩]⟩ := by
  decide

/-- C4 as amended (proved): for every `vulnerabilityFunction` the three
token arrays are exactly the fields obtained by splitting the element
texts at every single space character (so a run of `k` spaces produces
`k - 1` empty tokens and non-space whitespace does not separate), and the
decoded `lossratios` list is the position-wise (truncating) zip of those
three arrays in document order. The split is characterized independently:
joining the tokens with single spaces reconstructs the text and no token
contains a space. -/
theorem parse_vulnerability_space_tokens (doc : VulnDoc) :
    ∃ m, parse_vulnerability doc = Except.ok m ∧
      m.vulnerabilityfunctions = doc.functions.map parseVulnFunction ∧
      ∀ vF ∈ doc.functions,
        (parseVulnFunction vF).lossratios =
          List.zipWith3 (fun i mn c => LossRatioPoint.mk i mn c)
            (pySplitChar ' ' vF.imlsText) (pySplitChar ' ' vF.meanLRsText)
            (pySplitChar ' ' vF.covLRsText) ∧
        ∀ text ∈ [vF.imlsText, vF.meanLRsText, vF.covLRsText],
          joinSpace (pySplitChar ' ' text) = text ∧
          ∀ t ∈ pySplitChar ' ' text, ' ' ∉ t.data := by
  refine ⟨_, rfl, rfl, ?_⟩
  intro vF _
  exact ⟨rfl, fun text _ => pySplitChar_space_spec text⟩

/-! ## Job configuration model (`configparser.ConfigParser`) -/

/-- A `configparser.ConfigParser`: named sections in order, each an
ordered association list of key/value pairs (configparser keys are unique
within a section). Keys of configparser's top-level `DEFAULT` section are
the section-less keys. -/
structure Config where
  sections : List (String × List (String × String))
deriving DecidableEq, Repr

/-- The raw stored pairs of a section (`parser._sections[name]`), or
`none` when the section is absent. This is the parser's storage, not the
section view Python code observes: see `Config.sectionView`. -/
def Config.getSection (cfg : Config) (name : String) :
    Option (List (String × String)) :=
  (cfg.sections.find? (fun s => s.1 == name)).map (·.2)

/-- The stored pairs of configparser's special `DEFAULT` section
(`parser._defaults`), empty when that section is absent. -/
def Config.defaults (cfg : Config) : List (String × String) :=
  (cfg.getSection "DEFAULT").getD []

/-- The section view `cfg[name]` that Python code observes: configparser
merges the `DEFAULT` section's keys into every section view. Iteration
(`cfg[name].items()`, via `parser.options`) yields the section's own keys
in their stored order followed by the `DEFAULT`-only keys, and a lookup
`cfg[name][k]` prefers the section's own value, falling back to the
`DEFAULT` value. `none` when the section is absent (Python raises). -/
def Config.sectionView (cfg : Config) (name : String) :
    Option (List (String × String)) :=
  match cfg.getSection name with
  | none => none
  | some sec =>
    some (sec ++ cfg.defaults.filter
      (fun kv => !(sec.any (fun p => p.1 == kv.1))))

/-- `cfg.remove_section(name)`. -/
def Config.removeSection (cfg : Config) (name : String) : Config :=
  ⟨cfg.sections.filter (fun s => !(s.1 == name))⟩

/-- `cfg[sect][k] = v`: the section proxy's write goes to the section's
own storage (`parser.set`), updating the key in place when the section
already stores it and appending it otherwise (also when the key was until
now only visible through the `DEFAULT` merge). Section names and section
order are never changed. -/
def Config.setValue (cfg : Config) (sect k v : String) : Config :=
  ⟨cfg.sections.map (fun s =>
    (s.1, if s.1 == sect
      then (if s.2.any (fun kv => kv.1 == k)
        then s.2.map (fun kv => if kv.1 == k then (kv.1, v) else kv)
        else s.2 ++ [(k, v)])
      else s.2))⟩

/-- Modelled from the spec: `flatten_config` lives in `core/utils.py`,
which is not among the sources. Per the spec it flattens "all remaining
sections into dotted `section.key` string keys (a section-less top-level
key stays unqualified)"; the section-less keys are those of the `DEFAULT`
section. -/
def flatten_config (cfg : Config) : List (String × String) :=
  cfg.sections.flatMap (fun s =>
    s.2.map (fun kv =>
      (if s.1 == "DEFAULT" then kv.1 else s.1 ++ "." ++ kv.1, kv.2)))

/-! ## `parse_calculation` (`core/parsers.py`, lines 148-174) -/

/-- The decoded `calculation` dict: its fixed keys as fields, plus `fks`
for the dynamically added mode-dependent foreign-key entries. -/
structure Calculation where
  calculation_mode : String
  description : Option String
  aggregateby : Option String
  config : List (String × String)
  fks : List (String × String)
  _assetcollection_oid : String
deriving DecidableEq, Repr

/-- The `for k, v in job[section].items(): calculation[MAPPING[k]] = v`
loop: every key is sent through the foreign-key mapping; a key outside the
mapping raises `KeyError` (modelled as `Except.error`), aborting the
decode. -/
def mapFks (m : List (String × String)) :
    List (String × String) → Except String (List (String × String))
  | [] => Except.ok []
  | kv :: rest =>
    match assocFind m kv.1 with
    | none => Except.error ("KeyError: " ++ kv.1)
    | some fk => (mapFks m rest).map (fun l => (fk, kv.2) :: l)

/-- The two mode-conditional blocks of `parse_calculation`: for mode
`scenario_risk` the loop `for k, v in job['vulnerability'].items()`
iterates the section VIEW — the section's own keys followed by the
`DEFAULT`-merged ones — and maps each through the vulnerability mapping;
likewise the fragility mapping for `scenario_damage`; no foreign keys are
added for any other mode. -/
def computeFks (job : Config) (mode : String) :
    Except String (List (String × String)) :=
  if mode == "scenario_risk" then
    match job.sectionView "vulnerability" with
    | none => Except.error "KeyError: vulnerability"
    | some sec => mapFks VULNERABILITY_FK_MAPPING sec
  else if mode == "scenario_damage" then
    match job.sectionView "fragility" with
    | none => Except.error "KeyError: fragility"
    | some sec => mapFks FRAGILITY_FK_MAPPING sec
  else Except.ok []

/-- `job['exposure']['exposure_file']`: the lookup goes through the
section view (section value first, `DEFAULT` fallback); fails when the
section is absent or the key is in neither. -/
def exposureOid (job : Config) : Except String String :=
  match job.sectionView "exposure" with
  | none => Except.error "KeyError: exposure"
  | some sec =>
    match assocFind sec "exposure_file" with
    | none => Except.error "KeyError: exposure_file"
    | some v => Except.ok v

/-- The flattening step of `parse_calculation`: copy the caller's parser
(`flat_job.read_dict(job)`), remove the four file-reference sections from
the copy, flatten the rest. -/
def flattenedSettings (job : Config) : List (String × String) :=
  flatten_config
    ((((((Config.mk job.sections).removeSection
      "vulnerability").removeSection
      "exposure").removeSection
      "hazard").removeSection
      "fragility"))

/-- `parse_calculation` of `core/parsers.py`. The second component of the
result is the final state of the caller's `job` parser: the body only
reads from it (the section removal and all `pop`s act on the internal
copy), so it is handed back unchanged on every path. -/
def parse_calculation (job : Config) : Except String Calculation × Config :=
  let flat := flattenedSettings job
  let res : Except String Calculation :=
    match assocPop flat "calculation_mode" with
    | none => Except.error "KeyError: calculation_mode"
    | some (mode, flat1) =>
      let (desc, flat2) := assocPopD flat1 "description"
      let (agg, flat3) := assocPopD flat2 "aggregate_by"
      match computeFks job mode with
      | Except.error e => Except.error e
      | Except.ok fks =>
        match exposureOid job with
        | Except.error e => Except.error e
        | Except.ok oid => Except.ok ⟨mode, desc, agg, flat3, fks, oid⟩
  (res, job)

/-- Removing entries never makes an absent key present. -/
theorem assocFind_filter_none (l : List (String × String)) (k : String)
    (p : String × String → Bool) (h : assocFind l k = none) :
    assocFind (l.filter p) k = none := by
  unfold assocFind at h ⊢
  cases hf : l.find? (fun kv => kv.1 == k) with
  | none =>
    have hnone : ∀ x ∈ l, ¬((fun (kv : String × String) => kv.1 == k) x = true) := by
      rw [← List.find?_eq_none]
      exact hf
    have hfil : (l.filter p).find? (fun kv => kv.1 == k) = none := by
      rw [List.find?_eq_none]
      intro x hx
      exact hnone x (List.mem_of_mem_filter hx)
    rw [hfil]
    rfl
  | some v =>
    rw [hf] at h
    simp at h

/-! ### Claim C6: scenario_risk foreign-key injection -/

/-- `find?` by first component on a duplicate-free association list finds
the member itself. -/
theorem find?_fst_of_nodup {α : Type} :
    ∀ l : List (String × α), (l.map (·.1)).Nodup → ∀ p ∈ l,
      l.find? (fun q => q.1 == p.1) = some p
  | [], _, p, hp => absurd hp (List.not_mem_nil p)
  | q :: l, hnd, p, hp => by
    rw [List.map_cons] at hnd
    have hnd' := List.nodup_cons.mp hnd
    rcases List.mem_cons.mp hp with h | h
    · subst h
      simp [List.find?]
    · cases hb : q.1 == p.1 with
      | true =>
        exact absurd
          (by rw [beq_iff_eq.mp hb]; exact List.mem_map_of_mem (·.1) h)
          hnd'.1
      | false =>
        simp only [List.find?, hb]
        exact find?_fst_of_nodup l hnd'.2 p h

/-- A dotted qualified key `s ++ "." ++ k` contains a dot. -/
theorem dot_mem_qualified (s k : String) : '.' ∈ (s ++ "." ++ k).data := by
  rw [String.data_append, String.data_append]
  exact List.mem_append_left _
    (List.mem_append_right _ (List.mem_cons_self '.' []))

/-- An unqualified (dot-free) key found in a flattened configuration comes
from the `DEFAULT` section: every other section's keys are dotted. -/
theorem assocFind_flatten_default (cfg : Config) (k : String)
    (hdot : '.' ∉ k.data) (v : String)
    (h : assocFind (flatten_config cfg) k = some v) :
    ∃ p ∈ cfg.sections, p.1 = "DEFAULT" ∧ k ∈ p.2.map (·.1) := by
  unfold assocFind at h
  cases hf : (flatten_config cfg).find? (fun kv => kv.1 == k) with
  | none => rw [hf] at h; simp at h
  | some pair =>
    have hmem := List.mem_of_find?_eq_some hf
    have hp := List.find?_some hf
    have hkey : pair.1 = k := beq_iff_eq.mp hp
    unfold flatten_config at hmem
    rcases List.mem_flatMap.mp hmem with ⟨sct, hsct, hpair⟩
    rcases List.mem_map.mp hpair with ⟨kv, hkv, hq⟩
    have hq1 : (if (sct.1 == "DEFAULT") = true then kv.1
        else sct.1 ++ "." ++ kv.1) = pair.1 := by
      rw [← hq]
    by_cases hdef : (sct.1 == "DEFAULT") = true
    · rw [if_pos hdef] at hq1
      refine ⟨sct, hsct, beq_iff_eq.mp hdef, ?_⟩
      rw [← hkey, ← hq1]
      exact List.mem_map_of_mem (·.1) hkv
    · rw [if_neg hdef] at hq1
      exact absurd (by rw [← hkey, ← hq1]; exact dot_mem_qualified sct.1 kv.1)
        hdot

/-- With duplicate-free section names, the `DEFAULT` storage is the
`DEFAULT` member's pair list. -/
theorem defaults_eq_of_mem (cfg : Config)
    (hnd : (cfg.sections.map (·.1)).Nodup)
    (p : String × List (String × String)) (hp : p ∈ cfg.sections)
    (hdef : p.1 = "DEFAULT") : cfg.defaults = p.2 := by
  unfold Config.defaults Config.getSection
  rw [← hdef, find?_fst_of_nodup cfg.sections hnd p hp]
  rfl

/-- Every `DEFAULT` key is visible in every section view: either the
section stores it itself or the merge appends it. -/
theorem mem_sectionView_keys (cfg : Config) (name : String)
    (view : List (String × String))
    (hv : cfg.sectionView name = some view) (k : String)
    (hk : k ∈ cfg.defaults.map (·.1)) : k ∈ view.map (·.1) := by
  unfold Config.sectionView at hv
  cases hs : cfg.getSection name with
  | none => rw [hs] at hv; cases hv
  | some sec =>
    rw [hs] at hv
    have hview : view = sec ++ cfg.defaults.filter
        (fun kv => !(sec.any (fun p => p.1 == kv.1))) :=
      (Option.some.inj hv).symm
    rw [hview, List.map_append]
    by_cases hin : (sec.any (fun p => p.1 == k)) = true
    · rcases List.any_eq_true.mp hin with ⟨p, hp, hpe⟩
      apply List.mem_append_left
      rw [← beq_iff_eq.mp hpe]
      exact List.mem_map_of_mem (·.1) hp
    · apply List.mem_append_right
      rcases List.mem_map.mp hk with ⟨kv, hkv, hkk⟩
      have hfil : kv ∈ cfg.defaults.filter
          (fun kv => !(sec.any (fun p => p.1 == kv.1))) := by
        rw [List.mem_filter]
        refine ⟨hkv, ?_⟩
        rw [hkk]
        cases hb : sec.any (fun p => p.1 == k) with
        | true => exact absurd hb hin
        | false => rfl
      rw [← hkk]
      exact List.mem_map_of_mem (·.1) hfil

/-- The foreign-key loop fails as soon as some iterated key lies outside
the mapping. -/
theorem mapFks_error_of_unmapped (m : List (String × String)) :
    ∀ l : List (String × String),
      (∃ kv ∈ l, assocFind m kv.1 = none) →
      ∃ e, mapFks m l = Except.error e
  | [], h => by
    rcases h with ⟨kv, hkv, _⟩
    exact absurd hkv (List.not_mem_nil kv)
  | kv :: rest, h => by
    cases hf : assocFind m kv.1 with
    | none =>
      refine ⟨"KeyError: " ++ kv.1, ?_⟩
      simp [mapFks, hf]
    | some fk =>
      rcases h with ⟨kv0, hkv0, h0⟩
      rcases List.mem_cons.mp hkv0 with he | hm
      · rw [he] at h0
        rw [h0] at hf
        cases hf
      · rcases mapFks_error_of_unmapped m rest ⟨kv0, hm, h0⟩ with ⟨e, he2⟩
        refine ⟨e, ?_⟩
        simp [mapFks, hf, he2, Except.map]

/-- The claim's example configuration: mode `scenario_risk` as the
section-less key (configparser stores it in the `DEFAULT` section), one
vulnerability reference, one exposure reference. -/
def jobC6 : Config :=
  ⟨[("DEFAULT", [("calculation_mode", "scenario_risk")]),
    ("vulnerability", [("structural_vulnerability_file", "7")]),
    ("exposure", [("exposure_file", "1")])]⟩

/-- C6, counterexample. On the claim's own example — vulnerability section
`{structural_vulnerability_file: "7"}` with section-less mode
`scenario_risk` — `parse_calculation` does not return a record carrying
`_structuralvulnerabilitymodel_oid = "7"`: configparser merges the
`DEFAULT` section's keys into the `job['vulnerability']` view, so the
foreign-key loop also iterates `calculation_mode`, which lies outside
`VULNERABILITY_FK_MAPPING`, and the decode raises `KeyError`. -/
theorem parse_calculation_default_leak_cex :
    (parse_calculation jobC6).1
      = Except.error "KeyError: calculation_mode" := by
  decide

/-- C6 as amended (proved). A section-less `calculation_mode` key is
stored in configparser's `DEFAULT` section, and configparser merges every
`DEFAULT` key into every section view. So for every job configuration
with duplicate-free section names whose flattened settings yield
`calculation_mode = scenario_risk` and whose `vulnerability` section
exists, the loop `for k, v in job['vulnerability'].items()` reaches the
merged-in key `calculation_mode`, which is outside
`VULNERABILITY_FK_MAPPING`, and `parse_calculation` raises an error
instead of returning the mapped record the claim describes. -/
theorem parse_calculation_scenario_risk_default_leak (job : Config)
    (flat1 view : List (String × String))
    (hnd : (job.sections.map (·.1)).Nodup)
    (hmode : assocPop (flattenedSettings job) "calculation_mode"
      = some ("scenario_risk", flat1))
    (hview : job.sectionView "vulnerability" = some view) :
    ∃ e, (parse_calculation job).1 = Except.error e := by
  have hfind : assocFind (flattenedSettings job) "calculation_mode"
      = some "scenario_risk" := by
    unfold assocPop at hmode
    cases hf : assocFind (flattenedSettings job) "calculation_mode" with
    | none => rw [hf] at hmode; cases hmode
    | some v =>
      rw [hf] at hmode
      simp only [Option.some.injEq, Prod.mk.injEq] at hmode
      rw [hmode.1]
  have hdefault := assocFind_flatten_default
    ((((((Config.mk job.sections).removeSection
      "vulnerability").removeSection
      "exposure").removeSection
      "hazard").removeSection
      "fragility"))
    "calculation_mode" (by decide) "scenario_risk" hfind
  rcases hdefault with ⟨p, hpmem, hpdef, hpkey⟩
  have hpjob : p ∈ job.sections :=
    List.mem_of_mem_filter (List.mem_of_mem_filter
      (List.mem_of_mem_filter (List.mem_of_mem_filter hpmem)))
  have hdefeq : Config.defaults job = p.2 :=
    defaults_eq_of_mem job hnd p hpjob hpdef
  have hkview : "calculation_mode" ∈ view.map (·.1) :=
    mem_sectionView_keys job "vulnerability" view hview "calculation_mode"
      (by rw [hdefeq]; exact hpkey)
  rcases List.mem_map.mp hkview with ⟨kv, hkv, hkvk⟩
  have hunmapped : assocFind VULNERABILITY_FK_MAPPING kv.1 = none := by
    rw [show kv.1 = "calculation_mode" from hkvk]
    decide
  rcases mapFks_error_of_unmapped VULNERABILITY_FK_MAPPING view
    ⟨kv, hkv, hunmapped⟩ with ⟨e, he⟩
  have hcf : computeFks job "scenario_risk" = Except.error e := by
    have hred : computeFks job "scenario_risk"
        = match job.sectionView "vulnerability" with
          | none => Except.error "KeyError: vulnerability"
          | some sec => mapFks VULNERABILITY_FK_MAPPING sec := rfl
    rw [hred, hview]
    exact he
  refine ⟨e, ?_⟩
  simp only [parse_calculation, hmode]
  rcases hd : assocPopD flat1 "description" with ⟨desc, flat2⟩
  rcases ha : assocPopD flat2 "aggregate_by" with ⟨agg, flat3⟩
  rw [hcf]

/-- Witness for the amended C6: on the example configuration the
hypotheses hold concretely and the decode errors. -/
theorem parse_calculation_scenario_risk_default_leak_witness :
    ∃ e, (parse_calculation jobC6).1 = Except.error e :=
  parse_calculation_scenario_risk_default_leak jobC6 []
    [("structural_vulnerability_file", "7"),
     ("calculation_mode", "scenario_risk")]
    (by decide) (by decide) (by decide)

/-! ### Claim C9: calculation_mode is required, description and
aggregate_by are optional -/

/-- C9 (confirmed). `parse_calculation` fails for every job configuration
in which `calculation_mode` is absent after flattening; on a configuration
where it is present but the optional `description` and `aggregate_by` are
absent (and the mode-dependent sections and `exposure.exposure_file` are
in order), the decode succeeds with both optional fields defaulted to
`None`. -/
theorem parse_calculation_mode_required (job1 job2 : Config) (mode : String)
    (fkl : List (String × String)) (oid : String)
    (h1 : assocFind (flattenedSettings job1) "calculation_mode" = none)
    (h2m : assocFind (flattenedSettings job2) "calculation_mode" = some mode)
    (h2d : assocFind (flattenedSettings job2) "description" = none)
    (h2a : assocFind (flattenedSettings job2) "aggregate_by" = none)
    (h2f : computeFks job2 mode = Except.ok fkl)
    (h2e : exposureOid job2 = Except.ok oid) :
    (parse_calculation job1).1 = Except.error "KeyError: calculation_mode" ∧
      ∃ c, (parse_calculation job2).1 = Except.ok c ∧
        c.calculation_mode = mode ∧
        c.description = none ∧ c.aggregateby = none := by
  constructor
  · simp only [parse_calculation, assocPop, h1]
  · have hd := assocFind_filter_none (flattenedSettings job2)
      "description" (fun kv => !(kv.1 == "calculation_mode")) h2d
    have ha := assocFind_filter_none (flattenedSettings job2)
      "aggregate_by" (fun kv => !(kv.1 == "calculation_mode")) h2a
    simp only [parse_calculation, assocPop, h2m, assocPopD, hd, ha, h2f, h2e]
    exact ⟨_, rfl, rfl, rfl, rfl⟩

/-- Witness for C9: an empty configuration is refused for the missing
mode, while a configuration with only a top-level `calculation_mode` and
an exposure reference decodes with `description = None` and
`aggregate_by = None`. -/
theorem parse_calculation_mode_required_witness :
    (parse_calculation ⟨[]⟩).1 = Except.error "KeyError: calculation_mode" ∧
      ∃ c, (parse_calculation
          ⟨[("DEFAULT", [("calculation_mode", "preliminary")]),
            ("exposure", [("exposure_file", "1")])]⟩).1 = Except.ok c ∧
        c.calculation_mode = "preliminary" ∧
        c.description = none ∧ c.aggregateby = none :=
  parse_calculation_mode_required ⟨[]⟩
    ⟨[("DEFAULT", [("calculation_mode", "preliminary")]),
      ("exposure", [("exposure_file", "1")])]⟩
    "preliminary" [] "1"
    (by decide) (by decide) (by decide) (by decide) (by decide) (by decide)

/-! ### Claim C10: parse_calculation never mutates its input parser -/

/-- C10 (confirmed). `parse_calculation` hands the caller's parser back
unchanged on every path — the section removal and the `pop`s act on the
internal copy built by `read_dict` — so after the call the input object
still contains the `vulnerability`, `exposure`, `hazard` and `fragility`
sections and all its key-value pairs. -/
theorem parse_calculation_preserves_input (job : Config) :
    (parse_calculation job).2 = job ∧
      ∀ s ∈ job.sections, s ∈ (parse_calculation job).2.sections :=
  ⟨rfl, fun _ hs => hs⟩

/-- Witness for C10's universally quantified statement at the example
configuration of C6: the parser object comes back with all its sections. -/
theorem parse_calculation_preserves_input_witness :
    (parse_calculation jobC6).2 = jobC6 ∧
      ∀ s ∈ jobC6.sections, s ∈ (parse_calculation jobC6).2.sections :=
  parse_calculation_preserves_input jobC6

/-! ## `assemble_calculation_input` (`core/input.py`, lines 113-142) -/

/-- An in-memory text artifact (`io.StringIO` with its `name`
attribute). -/
structure MemFile where
  name : String
  content : String
deriving DecidableEq, Repr

/-- Modelled from the spec: the database session and template rendering
behind `create_exposure_input` and `create_vulnerability_input`
(`core/db`, `core/utils.create_file_pointer`, the XML templates) are not
among the sources. Their produced file contents are abstracted as
functions of the referenced entity's oid; the file names — the subject of
the bundle-ordering claim — are set by the code under `src/` itself. -/
structure SessionStub where
  exposureXml : String → String
  exposureCsv : String → String
  vulnerabilityXml : String → String

/-- `settings.write(job_ini)`: the INI rendering of the parser. -/
def configWrite (cfg : Config) : String :=
  String.join (cfg.sections.map (fun s =>
    "[" ++ s.1 ++ "]\n"
      ++ String.join (s.2.map (fun kv => kv.1 ++ " = " ++ kv.2 ++ "\n"))
      ++ "\n"))

/-- The `for k, v in job['vulnerability'].items()` loop of
`assemble_calculation_input`: each entry produces a vulnerability XML
named `k.replace('_file', '') + '.xml'`, the config entry is rewritten to
that name, and the files are collected in section order. -/
def vulnLoop (st : SessionStub) :
    Config → List (String × String) → List MemFile × Config
  | job, [] => ([], job)
  | job, kv :: rest =>
    let fname := pyReplace kv.1 "_file" "" ++ ".xml"
    let nxt := vulnLoop st (job.setValue "vulnerability" kv.1 fname) rest
    (MemFile.mk fname (st.vulnerabilityXml kv.2) :: nxt.1, nxt.2)

/-- The `for k, v in job['hazard'].items()` loop: each referenced hazard
file is passed through verbatim (contents abstracted as a function of the
path), renamed to its base filename, and the config entry rewritten. -/
def hazardLoop (fsys : String → String) :
    Config → List (String × String) → List MemFile × Config
  | job, [] => ([], job)
  | job, kv :: rest =>
    let fname := pyBasename kv.2
    let nxt := hazardLoop fsys (job.setValue "hazard" kv.1 fname) rest
    (MemFile.mk fname (fsys kv.2) :: nxt.1, nxt.2)

/-- `assemble_calculation_input` of `core/input.py`: exposure XML (named
`exposure.xml`, config rewritten), exposure asset CSV (named with
`create_exposure_input`'s default `assets_csv_name`,
`exposure_assets.csv`), the vulnerability XML files in the order of the
`job['vulnerability']` view (its `.items()` snapshot: own keys first,
then `DEFAULT`-merged ones), the hazard passthrough files in the order of
the `job['hazard']` view, and finally the rewritten job configuration
serialized as `job.ini`. -/
def assemble_calculation_input (st : SessionStub) (fsys : String → String)
    (job : Config) : Except String (List MemFile × Config) :=
  match exposureOid job with
  | Except.error e => Except.error e
  | Except.ok oid =>
    let exposure_xml : MemFile := ⟨"exposure.xml", st.exposureXml oid⟩
    let exposure_csv : MemFile := ⟨"exposure_assets.csv", st.exposureCsv oid⟩
    let job1 := job.setValue "exposure" "exposure_file" "exposure.xml"
    match job1.sectionView "vulnerability" with
    | none => Except.error "NoSectionError: vulnerability"
    | some vsec =>
      let vres := vulnLoop st job1 vsec
      match vres.2.sectionView "hazard" with
      | none => Except.error "NoSectionError: hazard"
      | some hsec =>
        let hres := hazardLoop fsys vres.2 hsec
        Except.ok
          ([exposure_xml, exposure_csv] ++ vres.1 ++ hres.1
            ++ [MemFile.mk "job.ini" (configWrite hres.2)], hres.2)

/-- `find?` on a first-component predicate commutes with a map that keeps
first components. -/
theorem find?_map_preserve
    (g : String × List (String × String) → List (String × String))
    (s' : String) :
    ∀ secs : List (String × List (String × String)),
      (secs.map (fun sct => (sct.1, g sct))).find? (fun sct => sct.1 == s')
        = (secs.find? (fun sct => sct.1 == s')).map
            (fun sct => (sct.1, g sct))
  | [] => rfl
  | hd :: tl => by
    simp only [List.map_cons, List.find?]
    cases hh : hd.1 == s' <;>
      simp [hh, find?_map_preserve g s' tl]

/-- `setValue` never touches the storage of a section other than the
named one. -/
theorem getSection_setValue_ne (cfg : Config) (s k v s' : String)
    (h : ¬(s' = s)) :
    (cfg.setValue s k v).getSection s' = cfg.getSection s' := by
  rcases cfg with ⟨secs⟩
  show (((secs.map (fun sct => (sct.1,
      if sct.1 == s
        then (if sct.2.any (fun kv => kv.1 == k)
          then sct.2.map (fun kv => if kv.1 == k then (kv.1, v) else kv)
          else sct.2 ++ [(k, v)])
        else sct.2))).find? (fun sct => sct.1 == s')).map (·.2))
    = ((secs.find? (fun sct => sct.1 == s')).map (·.2))
  rw [find?_map_preserve]
  cases hf : secs.find? (fun sct => sct.1 == s') with
  | none => rfl
  | some sct =>
    simp only [Option.map_some']
    have hp := List.find?_some hf
    have hs1 : sct.1 = s' := beq_iff_eq.mp hp
    have hsne : (sct.1 == s) = false :=
      beq_eq_false_iff_ne.mpr (fun hc => h (hs1 ▸ hc))
    simp [hsne]

/-- A write into a non-`DEFAULT` section leaves every other section's
view unchanged: neither that section's storage nor the merged `DEFAULT`
keys move. -/
theorem sectionView_setValue_ne (cfg : Config) (s k v s' : String)
    (h : ¬(s' = s)) (hd : ¬("DEFAULT" = s)) :
    (cfg.setValue s k v).sectionView s' = cfg.sectionView s' := by
  unfold Config.sectionView Config.defaults
  rw [getSection_setValue_ne cfg s k v s' h,
    getSection_setValue_ne cfg s k v "DEFAULT" hd]

/-- The vulnerability loop writes only into the `vulnerability` section,
so every other section's view survives it. -/
theorem vulnLoop_sectionView (st : SessionStub) :
    ∀ (l : List (String × String)) (job : Config) (s' : String),
      ¬(s' = "vulnerability") →
      ((vulnLoop st job l).2).sectionView s' = job.sectionView s'
  | [], _, _, _ => rfl
  | kv :: rest, job, s', h => by
    simp only [vulnLoop]
    rw [vulnLoop_sectionView st rest _ s' h,
      sectionView_setValue_ne _ _ _ _ _ h (by decide)]

/-- The names of the files the vulnerability loop produces, in section
order. -/
theorem vulnLoop_files_names (st : SessionStub) :
    ∀ (l : List (String × String)) (job : Config),
      ((vulnLoop st job l).1).map (·.name)
        = l.map (fun kv => pyReplace kv.1 "_file" "" ++ ".xml")
  | [], _ => rfl
  | kv :: rest, job => by
    simp only [vulnLoop, List.map_cons]
    rw [vulnLoop_files_names st rest]

/-- The names of the files the hazard loop produces, in section order. -/
theorem hazardLoop_files_names (fsys : String → String) :
    ∀ (l : List (String × String)) (job : Config),
      ((hazardLoop fsys job l).1).map (·.name)
        = l.map (fun kv => pyBasename kv.2)
  | [], _ => rfl
  | kv :: rest, job => by
    simp only [hazardLoop, List.map_cons]
    rw [hazardLoop_files_names fsys rest]

/-! ### Claim C5: bundle ordering -/

/-- C5 (confirmed). For every job configuration with an exposure
reference, a vulnerability section and a hazard section, the bundle's
file-name sequence is exactly: the exposure XML (`exposure.xml`), the
exposure asset CSV (`exposure_assets.csv`), the vulnerability XML files
in the iteration order of the `job['vulnerability']` view (named
`<key-without-_file>.xml`), the hazard passthrough files in the iteration
order of the `job['hazard']` view (base filenames), and last `job.ini`.
The views are taken after the exposure rewrite, which touches neither. -/
theorem assemble_bundle_order (st : SessionStub) (fsys : String → String)
    (job : Config) (oid : String) (vsec hsec : List (String × String))
    (he : exposureOid job = Except.ok oid)
    (hv : job.sectionView "vulnerability" = some vsec)
    (hh : job.sectionView "hazard" = some hsec) :
    ∃ files job2,
      assemble_calculation_input st fsys job = Except.ok (files, job2) ∧
        files.map (·.name)
          = ["exposure.xml", "exposure_assets.csv"]
            ++ vsec.map (fun kv => pyReplace kv.1 "_file" "" ++ ".xml")
            ++ hsec.map (fun kv => pyBasename kv.2)
            ++ ["job.ini"] := by
  have hv1 : (job.setValue "exposure" "exposure_file"
      "exposure.xml").sectionView "vulnerability" = some vsec := by
    rw [sectionView_setValue_ne _ _ _ _ _ (by decide) (by decide)]
    exact hv
  have hh1 : ((vulnLoop st (job.setValue "exposure" "exposure_file"
      "exposure.xml") vsec).2).sectionView "hazard" = some hsec := by
    rw [vulnLoop_sectionView st vsec _ "hazard" (by decide),
      sectionView_setValue_ne _ _ _ _ _ (by decide) (by decide)]
    exact hh
  simp only [assemble_calculation_input, he, hv1, hh1]
  refine ⟨_, _, rfl, ?_⟩
  simp only [List.map_append, List.map_cons, List.map_nil]
  rw [vulnLoop_files_names st vsec, hazardLoop_files_names fsys hsec]

/-- The claim's example session stub (contents are irrelevant to the
ordering property). -/
def stC5 : SessionStub := ⟨fun _ => "", fun _ => "", fun _ => ""⟩

/-- The claim's example configuration: one exposure reference, two
vulnerability references, one hazard reference. -/
def jobC5 : Config :=
  ⟨[("exposure", [("exposure_file", "1")]),
    ("vulnerability",
      [("structural_vulnerability_file", "2"),
       ("contents_vulnerability_file", "3")]),
    ("hazard", [("gmfs_csv", "data/gmfs.csv")])]⟩

/-- Witness for C5: with two vulnerability references and one hazard
reference the name sequence is exactly `[exposure.xml,
exposure_assets.csv, structural_vulnerability.xml,
contents_vulnerability.xml, gmfs.csv, job.ini]`. -/
theorem assemble_bundle_order_witness :
    ∃ files job2,
      assemble_calculation_input stC5 (fun _ => "") jobC5
          = Except.ok (files, job2) ∧
        files.map (·.name)
          = ["exposure.xml", "exposure_assets.csv"]
            ++ [("structural_vulnerability_file", "2"),
                ("contents_vulnerability_file", "3")].map
                (fun kv => pyReplace kv.1 "_file" "" ++ ".xml")
            ++ [("gmfs_csv", "data/gmfs.csv")].map
                (fun kv => pyBasename kv.2)
            ++ ["job.ini"] :=
  assemble_bundle_order stC5 (fun _ => "") jobC5 "1"
    [("structural_vulnerability_file", "2"),
     ("contents_vulnerability_file", "3")]
    [("gmfs_csv", "data/gmfs.csv")]
    (by decide) (by decide) (by decide)

/-! ## Asset encoding (`assets_to_dataframe`, `core/input.py` lines
82-110) -/

/-- One aggregation tag of an asset: its category (`type`) and its value
(`name`), as in the spec's data model. -/
structure AggTag where
  type : String
  name : String
deriving DecidableEq, Repr

/-- An asset's site: location is never missing. -/
structure Site where
  longitude : String
  latitude : String
deriving DecidableEq, Repr

/-- Modelled from the spec: the `Asset` record of the external datamodel
package (`esloss.datamodel.asset`) is not among the sources. Per the
spec's data model an asset carries an identifier, the internal-named
monetary/occupancy/count fields (each possibly missing), a location and a
mapping of tag category to tag value. -/
structure Asset where
  _oid : String
  taxonomy_concept : Cell
  buildingcount : Cell
  contentsvalue : Cell
  dayoccupancy : Cell
  nightoccupancy : Cell
  transitoccupancy : Cell
  structuralvalue : Cell
  nonstructuralvalue : Cell
  businessinterruptionvalue : Cell
  site : Site
  aggregationtags : List AggTag
deriving DecidableEq, Repr

/-- The internal value column names, in mapping order. -/
def internalValueNames : List String := ASSETS_COLS_MAPPING.map (·.2)

/-- `x._asdict()` of one asset restricted to the internal value fields
(field order is irrelevant: the final column selection reorders by the
selector). -/
def assetAsdict (a : Asset) : List (String × Cell) :=
  [("taxonomy_concept", a.taxonomy_concept),
   ("buildingcount", a.buildingcount),
   ("contentsvalue", a.contentsvalue),
   ("dayoccupancy", a.dayoccupancy),
   ("nightoccupancy", a.nightoccupancy),
   ("transitoccupancy", a.transitoccupancy),
   ("structuralvalue", a.structuralvalue),
   ("nonstructuralvalue", a.nonstructuralvalue),
   ("businessinterruptionvalue", a.businessinterruptionvalue)]

/-- Field access on the `_asdict` view. -/
def assetField (a : Asset) (f : String) : Cell :=
  (((assetAsdict a).find? (fun kv => kv.1 == f)).map (·.2)).getD none

/-- `assets_df`: one column per internal value field. -/
def assetsDfCols (assets : List Asset) : List Col :=
  internalValueNames.map (fun f => ⟨f, assets.map (fun a => assetField a f)⟩)

/-- `sites_df[['longitude', 'latitude']]`: locations are never missing. -/
def sitesDfCols (assets : List Asset) : List Col :=
  [⟨"longitude", assets.map (fun a => some a.site.longitude)⟩,
   ⟨"latitude", assets.map (fun a => some a.site.latitude)⟩]

/-- `{tag.type: tag.name for tag in asset.aggregationtags}` — a Python
dict comprehension (later entries of the same type overwrite). -/
def rowTagDict (a : Asset) : List (String × String) :=
  dictOf (a.aggregationtags.map (fun t => (t.type, t.name)))

/-- First-appearance deduplication with an explicit seen list. -/
def dedupFirstAux (seen : List String) : List String → List String
  | [] => []
  | x :: rest =>
    if seen.contains x then dedupFirstAux seen rest
    else x :: dedupFirstAux (x :: seen) rest

/-- The columns of `pd.DataFrame(list-of-dicts)`: the union of the dicts'
keys in order of first appearance. -/
def tagTypes (assets : List Asset) : List String :=
  dedupFirstAux [] (assets.flatMap (fun a => (rowTagDict a).map (·.1)))

/-- A cell of `aggregationtags_df`. -/
def tagCell (a : Asset) (t : String) : Cell := assocFind (rowTagDict a) t

/-- `aggregationtags_df`: one column per observed tag category. -/
def tagsDfCols (assets : List Asset) : List Col :=
  (tagTypes assets).map (fun t => ⟨t, assets.map (fun a => tagCell a t)⟩)

/-- The `selector` dict of `assets_to_dataframe`:
`{**{'longitude': 'lon', 'latitude': 'lat'},
  **{v: k for k, v in ASSETS_COLS_MAPPING.items()},
  **{k: k for k in aggregationtags_df.columns}}`. -/
def selectorList (assets : List Asset) : List (String × String) :=
  dictOf ([("longitude", "lon"), ("latitude", "lat")]
    ++ ASSETS_COLS_MAPPING.map (fun kv => (kv.2, kv.1))
    ++ (tagTypes assets).map (fun t => (t, t)))

/-- `result_df.rename(columns=selector)` on one column. -/
def renameBySelector (sel : List (String × String)) (c : Col) : Col :=
  { c with name := (assocFind sel c.name).getD c.name }

/-- `df[[*names]]`: for each requested name, all columns bearing it, in
request order. -/
def selectCols (cols : List Col) (names : List String) : List Col :=
  names.flatMap (fun v => cols.filter (fun c => c.name == v))

/-- The concatenated, renamed and selected table of
`assets_to_dataframe`, before the missing-value handling. -/
def selectedStage (assets : List Asset) : List Col :=
  selectCols
    ((assetsDfCols assets ++ sitesDfCols assets ++ tagsDfCols assets).map
      (renameBySelector (selectorList assets)))
    ((selectorList assets).map (·.2))

/-- `.dropna(axis=1, how='all')`: drop the columns whose every cell is
missing. -/
def dropAllNaCols (cols : List Col) : List Col :=
  cols.filter (fun c => !(c.cells.all (fun x => x.isNone)))

/-- `.fillna(0)` on one column: every remaining missing cell becomes the
zero value (rendered `"0"` in the string-cell model). -/
def fillnaZero (c : Col) : Col :=
  { c with cells := c.cells.map (fun x => some (x.getD "0")) }

/-- `assets_to_dataframe` of `core/input.py`: concatenate the asset,
site and tag fragments, rename internal to external names via the
selector, select the selector's values, drop all-missing columns, fill
the remaining missing values with zero and name the row index `id`. On an
empty asset list the Python body raises (`set_index('_oid')` on a frame
without columns), modelled as the error case. -/
def assets_to_dataframe (assets : List Asset) : Except String DFrame :=
  if assets.isEmpty then Except.error "KeyError: _oid"
  else Except.ok
    { indexName := "id"
      index := assets.map (·._oid)
      cols := (dropAllNaCols (selectedStage assets)).map fillnaZero }

/-! ### Claim C7: no nulls in the encoded asset table -/

/-- C7 (confirmed). For every non-empty asset list the encode succeeds;
the row index of the result is named `id`; no missing value appears in any
output cell (they were zero-filled); and a column name survives into the
output exactly when some selected column bearing it is not missing for
all assets — every all-missing column is dropped. -/
theorem assets_to_dataframe_no_nulls (assets : List Asset)
    (h : assets ≠ []) :
    ∃ out, assets_to_dataframe assets = Except.ok out ∧
      out.indexName = "id" ∧
      (∀ c ∈ out.cols, ∀ x ∈ c.cells, x.isSome = true) ∧
      (∀ nm : String,
        (∃ c ∈ out.cols, c.name = nm) ↔
          ∃ c ∈ selectedStage assets,
            c.name = nm ∧ ¬(c.cells.all (fun x => x.isNone) = true)) := by
  have hne : assets.isEmpty = false := by
    cases assets with
    | nil => exact absurd rfl h
    | cons a rest => rfl
  refine ⟨⟨"id", assets.map (·._oid),
      (dropAllNaCols (selectedStage assets)).map fillnaZero⟩,
    by simp [assets_to_dataframe, hne], rfl, ?_, ?_⟩
  · intro c hc x hx
    rcases List.mem_map.mp hc with ⟨c0, _, hc0⟩
    rw [← hc0] at hx
    rcases List.mem_map.mp hx with ⟨x0, _, hx0⟩
    rw [← hx0]
    rfl
  · intro nm
    constructor
    · rintro ⟨c, hc, hcn⟩
      rcases List.mem_map.mp hc with ⟨c0, hc0, hcc⟩
      refine ⟨c0, List.mem_of_mem_filter hc0, ?_, ?_⟩
      · rw [← hcn, ← hcc]
        rfl
      · have hp := (List.mem_filter.mp hc0).2
        simp only [Bool.not_eq_true'] at hp
        simp [hp]
    · rintro ⟨c0, hc0, hcn, hna⟩
      refine ⟨fillnaZero c0, List.mem_map_of_mem fillnaZero ?_, hcn⟩
      apply List.mem_filter.mpr
      refine ⟨hc0, ?_⟩
      simp only [Bool.not_eq_true']
      exact Bool.not_eq_true _ ▸ (by simpa using hna)

/-- Witness for C7 at a one-asset list: the encode succeeds with index
`id`, no missing values, and exactly the not-all-missing columns kept. -/
theorem assets_to_dataframe_no_nulls_witness :
    ∃ out, assets_to_dataframe
        [⟨"a1", some "MUR", none, none, none, none, none, none, none, none,
          ⟨"7.4", "46.9"⟩, [⟨"Canton", "BE"⟩]⟩] = Except.ok out ∧
      out.indexName = "id" ∧
      (∀ c ∈ out.cols, ∀ x ∈ c.cells, x.isSome = true) ∧
      (∀ nm : String,
        (∃ c ∈ out.cols, c.name = nm) ↔
          ∃ c ∈ selectedStage
              [⟨"a1", some "MUR", none, none, none, none, none, none, none,
                none, ⟨"7.4", "46.9"⟩, [⟨"Canton", "BE"⟩]⟩],
            c.name = nm ∧ ¬(c.cells.all (fun x => x.isNone) = true)) :=
  assets_to_dataframe_no_nulls _ (by decide)

/-! ## `parse_exposure` (`core/parsers.py`, lines 67-104) and the
exposure round trip -/

/-- An exposure XML document after namespace stripping, with the
referenced asset CSV already loaded as a table (the path resolution and
file opening of lines 98-102 are I/O around `parse_assets`). -/
structure ExposureDoc where
  id : String
  category : String
  taxonomySource : String
  description : String
  occupancyPeriodsText : String
  costTypes : List (List (String × String))
  tagNamesText : String
  assetCsv : DFrame
deriving Repr

/-- The decoded `model` dict of `parse_exposure` (the `costtypes` entries
are the `costType` elements' attribute bags in document order). -/
structure ExposureModelRec where
  publicid : String
  category : String
  taxonomy_classificationsource_resourceid : String
  description : String
  dayoccupancy : Bool
  nightoccupancy : Bool
  transitoccupancy : Bool
  costtypes : List (List (String × String))
deriving DecidableEq, Repr

/-- `parse_exposure` of `core/parsers.py`. The Python function returns
`(model, assets)`; the decoded tag-name list is a local of the Python
body, returned here as well because the spec-modelled persistence needs
the declared tag names. -/
def parse_exposure (doc : ExposureDoc) :
    ExposureModelRec × List String × DFrame :=
  let occupancyperiods := pySplitWs doc.occupancyPeriodsText
  let tagnames := pySplitChar ',' doc.tagNamesText
  ({ publicid := doc.id
     category := doc.category
     taxonomy_classificationsource_resourceid := doc.taxonomySource
     description := doc.description
     dayoccupancy := occupancyperiods.contains "day"
     nightoccupancy := occupancyperiods.contains "night"
     transitoccupancy := occupancyperiods.contains "transit"
     costtypes := doc.costTypes },
   tagnames,
   parse_assets doc.assetCsv tagnames)

/-- The first column of a table bearing a name, as pandas label lookup. -/
def tableCol (tbl : DFrame) (nm : String) : Option Col :=
  tbl.cols.find? (fun c => c.name == nm)

/-- The cell of a named column at a row position (`none` when the column
is absent — a NULL database field — or the position is out of range). -/
def rowCell (tbl : DFrame) (nm : String) (i : Nat) : Cell :=
  match tableCol tbl nm with
  | none => none
  | some c => (c.cells.get? i).getD none

/-- Modelled from the spec: the persistence layer (`core/db`, the
`esloss.datamodel` entities) is not among the sources. Per the spec's
data model, each decoded table row becomes an asset whose internal-named
fields are the row's cells, whose site is the row's longitude/latitude
and whose tags are the row's values in the declared tag-name columns. -/
def persistAsset (tbl : DFrame) (tagnames : List String) (i : Nat)
    (oid : String) : Asset :=
  { _oid := oid
    taxonomy_concept := rowCell tbl "taxonomy_concept" i
    buildingcount := rowCell tbl "buildingcount" i
    contentsvalue := rowCell tbl "contentsvalue" i
    dayoccupancy := rowCell tbl "dayoccupancy" i
    nightoccupancy := rowCell tbl "nightoccupancy" i
    transitoccupancy := rowCell tbl "transitoccupancy" i
    structuralvalue := rowCell tbl "structuralvalue" i
    nonstructuralvalue := rowCell tbl "nonstructuralvalue" i
    businessinterruptionvalue := rowCell tbl "businessinterruptionvalue" i
    site := ⟨(rowCell tbl "longitude" i).getD "",
             (rowCell tbl "latitude" i).getD ""⟩
    aggregationtags := tagnames.filterMap
      (fun t => (rowCell tbl t i).map (fun v => AggTag.mk t v)) }

/-- First-appearance deduplication of aggregation tags. -/
def dedupTagsAux (seen : List AggTag) : List AggTag → List AggTag
  | [] => []
  | t :: rest =>
    if seen.contains t then dedupTagsAux seen rest
    else t :: dedupTagsAux (t :: seen) rest

/-- Modelled from the spec: the persisted `AssetCollection` owns its cost
types, its assets and the distinct aggregation tags observed across the
assets. -/
structure AssetCollection where
  costtypes : List (List (String × String))
  assets : List Asset
  aggregationtags : List AggTag
deriving Repr

/-- The assets persisted from a decoded table: one per row, in row
order. -/
def persistedAssets (tbl : DFrame) (tagnames : List String) : List Asset :=
  (List.range tbl.index.length).map
    (fun i => persistAsset tbl tagnames i ((tbl.index.get? i).getD ""))

/-- Modelled from the spec: persistence of a decoded exposure model, its
declared tag names and its decoded asset table into an `AssetCollection`
(one asset per table row, in row order). -/
def persistCollection (m : ExposureModelRec) (tagnames : List String)
    (tbl : DFrame) : AssetCollection :=
  { costtypes := m.costtypes
    assets := persistedAssets tbl tagnames
    aggregationtags := dedupTagsAux []
      ((persistedAssets tbl tagnames).flatMap (·.aggregationtags)) }

/-- The encode half of `create_exposure_input` (`core/input.py`, lines
47-79) relevant to the round trip: the cost-type list
(`[c._asdict() for c in asset_collection.costtypes]`), the tag-name dict
(`{agg.type: agg.name for agg in asset_collection.aggregationtags}`) and
the encoded asset table (`assets_to_dataframe(asset_collection.assets)`).
The template rendering and the CSV text serialization are file-content
concerns outside the sources. -/
def create_exposure_input (col : AssetCollection) :
    Except String
      (List (List (String × String)) × List (String × String) × DFrame) :=
  (assets_to_dataframe col.assets).map
    (fun df =>
      (col.costtypes,
       dictOf (col.aggregationtags.map (fun t => (t.type, t.name))),
       df))

/-- Decode an exposure document, persist the resulting collection, and
re-encode it. -/
def exposureRoundtrip (doc : ExposureDoc) :
    Except String
      (List (List (String × String)) × List (String × String) × DFrame) :=
  let dec := parse_exposure doc
  create_exposure_input (persistCollection dec.1 dec.2.1 dec.2.2)

/-- Zero-filling of one cell, as `.fillna(0)` acts on it. -/
def zeroFillCell (x : Cell) : Cell := some (x.getD "0")

/-- The claim's literal table comparison: same column names (order
ignored), each encoded column's cells equal to the equally named decoded
column's cells with absent values zero-filled. -/
def tableEqUpToOrderZeroFill (enc dec : List Col) : Bool :=
  enc.all (fun c => dec.any (fun d =>
      c.name == d.name && c.cells == d.cells.map zeroFillCell))
    && dec.all (fun d => enc.any (fun c =>
      c.name == d.name && c.cells == d.cells.map zeroFillCell))

/-- The internal-to-external renaming of the encode direction: the
location pair and the inverse asset bijection; any other name (a tag
category) is kept. -/
def toExternalName (nm : String) : String :=
  (assocFind ([("longitude", "lon"), ("latitude", "lat")]
    ++ ASSETS_COLS_MAPPING.map (fun kv => (kv.2, kv.1))) nm).getD nm

/-- Table comparison up to column order, zero-fill and the
internal-to-external renaming of the encode direction. -/
def tableEqUpToOrderZeroFillRename (enc dec : List Col) : Bool :=
  enc.all (fun c => dec.any (fun d =>
      c.name == toExternalName d.name && c.cells == d.cells.map zeroFillCell))
    && dec.all (fun d => enc.any (fun c =>
      c.name == toExternalName d.name && c.cells == d.cells.map zeroFillCell))

/-- A small well-formed exposure document: one cost type, one declared
tag (`Canton`), one asset with location, taxonomy and a tag value. -/
def docC2 : ExposureDoc :=
  { id := "e1"
    category := "buildings"
    taxonomySource := "SPG"
    description := "test exposure"
    occupancyPeriodsText := "day night"
    costTypes := [[("name", "structural"), ("type", "per_asset"),
                   ("unit", "CHF")]]
    tagNamesText := "Canton"
    assetCsv :=
      ⟨"id", ["a1"],
        [⟨"lon", [some "7.4"]⟩, ⟨"lat", [some "46.9"]⟩,
         ⟨"taxonomy", [some "MUR"]⟩, ⟨"Canton", [some "BE"]⟩]⟩ }

/-- The payload of a successful round trip (a default value stands in for
the error case, which the theorems exclude). -/
def roundtripOutput (doc : ExposureDoc) :
    List (List (String × String)) × List (String × String) × DFrame :=
  (exposureRoundtrip doc).toOption.getD ([], [], ⟨"", [], []⟩)

/-! ### Claim C2: the exposure round trip -/

/-- C2, counterexample. On a small well-formed exposure document the
round trip reproduces the cost-type list and the tag-name set, but the
re-encoded asset table is NOT equal to the decoded one up to column
ordering and zero-fill: the encoder emits the external engine names
(`lon`, `lat`, `taxonomy`, ...) while the decoded table carries the
internal names (`longitude`, `latitude`, `taxonomy_concept`, ...), so no
column of the encoded table matches a decoded column by name. -/
theorem exposure_roundtrip_literal_cex :
    (exposureRoundtrip docC2).toOption.isSome = true ∧
      (roundtripOutput docC2).1 = (parse_exposure docC2).1.costtypes ∧
      (roundtripOutput docC2).2.1.map (·.1) = ["Canton"] ∧
      (parse_exposure docC2).2.1 = ["Canton"] ∧
      ((roundtripOutput docC2).2.2.cols).map (·.name)
        = ["lon", "lat", "taxonomy", "Canton"] ∧
      ((parse_exposure docC2).2.2.cols).map (·.name)
        = ["longitude", "latitude", "taxonomy_concept", "Canton"] ∧
      tableEqUpToOrderZeroFill (roundtripOutput docC2).2.2.cols
        (parse_exposure docC2).2.2.cols = false := by
  decide

/-- `find?` over an append searches left to right. -/
theorem find?_append_eq {α : Type} (p : α → Bool) :
    ∀ l1 l2 : List α,
      (l1 ++ l2).find? p =
        match l1.find? p with
        | some x => some x
        | none => l2.find? p
  | [], _ => rfl
  | x :: l1, l2 => by
    simp only [List.cons_append, List.find?]
    cases p x <;> simp [find?_append_eq p l1 l2]

/-- Reading every position of a list back in order reproduces it. -/
theorem map_getD_get?_range {α : Type} (d : α) :
    ∀ l : List α,
      (List.range l.length).map (fun i => (l.get? i).getD d) = l
  | [] => rfl
  | x :: xs => by
    rw [List.length_cons, List.range_succ_eq_map, List.map_cons,
      List.map_map]
    exact congrArg (x :: ·) (map_getD_get?_range d xs)

/-- With distinct column names, label lookup finds the member column. -/
theorem find?_name_of_nodup :
    ∀ cols : List Col, (cols.map (·.name)).Nodup → ∀ c ∈ cols,
      cols.find? (fun c' => c'.name == c.name) = some c
  | [], _, c, hc => absurd hc (List.not_mem_nil c)
  | d :: cols, hnd, c, hc => by
    have hnd' : (∀ x ∈ cols, ¬x.name = d.name)
        ∧ (cols.map (·.name)).Nodup := by simpa using hnd
    rcases List.mem_cons.mp hc with h | h
    · subst h
      simp [List.find?]
    · cases hb : d.name == c.name with
      | true =>
        exact absurd (beq_iff_eq.mp hb).symm (hnd'.1 c h)
      | false =>
        simp only [List.find?, hb]
        exact find?_name_of_nodup cols hnd'.2 c h

/-- Label lookup on a table with distinct column names. -/
theorem tableCol_of_mem (tbl : DFrame) (c : Col)
    (hnd : tbl.colNames.Nodup) (hc : c ∈ tbl.cols) :
    tableCol tbl c.name = some c :=
  find?_name_of_nodup tbl.cols hnd c hc

/-- Label lookup of an absent name. -/
theorem tableCol_eq_none (tbl : DFrame) (f : String)
    (h : f ∉ tbl.colNames) : tableCol tbl f = none := by
  unfold tableCol
  rw [List.find?_eq_none]
  intro c hc hb
  exact h (beq_iff_eq.mp hb ▸ List.mem_map_of_mem (·.name) hc)

/-- Reading a member column cell by cell reproduces its cells. -/
theorem range_map_rowCell (tbl : DFrame) (c : Col)
    (hnd : tbl.colNames.Nodup) (hc : c ∈ tbl.cols) :
    (List.range c.cells.length).map (fun i => rowCell tbl c.name i)
      = c.cells := by
  have hfind : tableCol tbl c.name = some c := tableCol_of_mem tbl c hnd hc
  have heq : (fun i => rowCell tbl c.name i)
      = fun i => (c.cells.get? i).getD none := by
    funext i
    simp [rowCell, hfind]
  rw [heq]
  exact map_getD_get?_range none c.cells

/-- A member cell of an all-present column is recovered by `getD` and
re-wrapping. -/
theorem range_map_rowCell_some (tbl : DFrame) (c : Col)
    (hnd : tbl.colNames.Nodup) (hc : c ∈ tbl.cols)
    (hs : ∀ x ∈ c.cells, x.isSome = true) :
    (List.range c.cells.length).map
        (fun i => some ((rowCell tbl c.name i).getD "")) = c.cells := by
  have hfind : tableCol tbl c.name = some c := tableCol_of_mem tbl c hnd hc
  have hstep := range_map_rowCell tbl c hnd hc
  conv_rhs => rw [← hstep]
  apply List.map_congr_left
  intro i hi
  have hlt : i < c.cells.length := List.mem_range.mp hi
  have hx : c.cells.get? i = some (c.cells.get ⟨i, hlt⟩) :=
    List.get?_eq_get hlt
  have hxs := hs _ (List.get?_mem hx)
  rcases Option.isSome_iff_exists.mp hxs with ⟨v, hv⟩
  simp only [rowCell, hfind, hx, hv, Option.getD_some]

/-- A present cell of an all-present member column. -/
theorem rowCell_isSome (tbl : DFrame) (c : Col) (i : Nat)
    (hnd : tbl.colNames.Nodup) (hc : c ∈ tbl.cols)
    (hs : ∀ x ∈ c.cells, x.isSome = true) (hi : i < c.cells.length) :
    (rowCell tbl c.name i).isSome = true := by
  have hfind : tableCol tbl c.name = some c := tableCol_of_mem tbl c hnd hc
  have hx : c.cells.get? i = some (c.cells.get ⟨i, hi⟩) :=
    List.get?_eq_get hi
  have hxs := hs _ (List.get?_mem hx)
  simp only [rowCell, hfind, hx, Option.getD_some]
  exact hxs

/-- Association lookup in a key-indexed map of a list. -/
theorem assocFind_map_self (f : String → String) :
    ∀ (l : List String) (t : String), t ∈ l →
      assocFind (l.map (fun x => (x, f x))) t = some (f t)
  | [], t, h => absurd h (List.not_mem_nil t)
  | x :: rest, t, h => by
    simp only [List.map_cons, assocFind, List.find?]
    cases hb : x == t with
    | true =>
      have hx : x = t := beq_iff_eq.mp hb
      simp [hx]
    | false =>
      rcases List.mem_cons.mp h with he | hm
      · rw [he] at hb
        simp at hb
      · exact assocFind_map_self f rest t hm

/-- When every tag lookup succeeds, the tag `filterMap` is a plain map. -/
theorem filterMap_tags_eq_map (tbl : DFrame) (i : Nat) :
    ∀ tagnames : List String,
      (∀ t ∈ tagnames, (rowCell tbl t i).isSome = true) →
      tagnames.filterMap
          (fun t => (rowCell tbl t i).map (fun v => AggTag.mk t v))
        = tagnames.map
            (fun t => AggTag.mk t ((rowCell tbl t i).getD ""))
  | [], _ => rfl
  | t :: rest, hs => by
    rcases Option.isSome_iff_exists.mp
        (hs t (List.mem_cons_self t rest)) with ⟨v, hv⟩
    simp only [List.filterMap_cons, List.map_cons, hv, Option.map_some',
      Option.getD_some]
    rw [filterMap_tags_eq_map tbl i rest
      (fun x hx => hs x (List.mem_cons_of_mem _ hx))]

/-- Inserting pairs with fresh, pairwise distinct keys appends them. -/
theorem foldl_dictInsert_of_nodup :
    ∀ (l acc : List (String × String)),
      (∀ kv ∈ l, ∀ kv' ∈ acc, ¬(kv.1 = kv'.1)) →
      (l.map (·.1)).Nodup →
      l.foldl dictInsert acc = acc ++ l
  | [], acc, _, _ => by simp
  | kv :: rest, acc, hdisj, hnd => by
    rw [List.map_cons] at hnd
    have hnd' := List.nodup_cons.mp hnd
    have hnotin : acc.any (fun p => p.1 == kv.1) = false := by
      rw [List.any_eq_false]
      intro p hp hb
      exact hdisj kv (List.mem_cons_self kv rest) p hp (beq_iff_eq.mp hb).symm
    simp only [List.foldl_cons, dictInsert, hnotin, Bool.false_eq_true,
      if_false]
    rw [foldl_dictInsert_of_nodup rest (acc ++ [kv]) ?_ hnd'.2]
    · simp
    · intro kv2 h2 kv' h'
      rcases List.mem_append.mp h' with ha | hb
      · exact hdisj kv2 (List.mem_cons_of_mem _ h2) kv' ha
      · have hkv : kv' = kv := by simpa using hb
        subst hkv
        exact fun he => hnd'.1 (he ▸ List.mem_map_of_mem (·.1) h2)
  termination_by l => l.length

/-- `dict(pairs)` with pairwise distinct keys is the pair list itself. -/
theorem dictOf_of_nodup (l : List (String × String))
    (hnd : (l.map (·.1)).Nodup) : dictOf l = l := by
  have := foldl_dictInsert_of_nodup l []
    (fun kv _ kv' h' => absurd h' (List.not_mem_nil kv')) hnd
  simpa [dictOf] using this

/-- `dictInsert` preserves the key set, adding the inserted key. -/
theorem mem_keys_dictInsert (acc : List (String × String))
    (kv : String × String) (k : String) :
    k ∈ (dictInsert acc kv).map (·.1)
      ↔ k ∈ acc.map (·.1) ∨ k = kv.1 := by
  unfold dictInsert
  by_cases h : acc.any (fun p => p.1 == kv.1) = true
  · rw [if_pos h]
    have hkeys : (acc.map (fun p =>
        if (p.1 == kv.1) = true then (p.1, kv.2) else p)).map (·.1)
        = acc.map (·.1) := by
      rw [List.map_map]
      apply List.map_congr_left
      intro p _
      by_cases hq : p.1 = kv.1 <;> simp [hq]
    rw [hkeys]
    constructor
    · exact Or.inl
    · rintro (hm | he)
      · exact hm
      · rcases List.any_eq_true.mp h with ⟨p, hp, hpe⟩
        rw [he, ← beq_iff_eq.mp hpe]
        exact List.mem_map_of_mem (·.1) hp
  · rw [if_neg h]
    simp [or_comm]

/-- Folding `dictInsert` preserves key membership. -/
theorem mem_keys_foldl_dictInsert :
    ∀ (l acc : List (String × String)) (k : String),
      k ∈ (l.foldl dictInsert acc).map (·.1)
        ↔ k ∈ acc.map (·.1) ∨ k ∈ l.map (·.1)
  | [], acc, k => by simp
  | kv :: rest, acc, k => by
    simp only [List.foldl_cons, List.map_cons, List.mem_cons]
    rw [mem_keys_foldl_dictInsert rest (dictInsert acc kv) k,
      mem_keys_dictInsert]
    tauto

/-- Key membership in a Python dict built from pairs. -/
theorem mem_keys_dictOf (l : List (String × String)) (k : String) :
    k ∈ (dictOf l).map (·.1) ↔ k ∈ l.map (·.1) := by
  rw [dictOf, mem_keys_foldl_dictInsert]
  simp

/-- Deduplication of a list whose members were all seen yields nothing. -/
theorem dedupFirstAux_nil_of_mem :
    ∀ (l seen : List String), (∀ x ∈ l, seen.contains x = true) →
      dedupFirstAux seen l = []
  | [], _, _ => rfl
  | x :: rest, seen, h => by
    simp only [dedupFirstAux, h x (List.mem_cons_self x rest), if_true]
    exact dedupFirstAux_nil_of_mem rest seen
      (fun y hy => h y (List.mem_cons_of_mem _ hy))

/-- Deduplication passes an unseen duplicate-free prefix through. -/
theorem dedupFirstAux_append_of_nodup :
    ∀ (l seen l2 : List String), l.Nodup →
      (∀ x ∈ l, seen.contains x = false) →
      dedupFirstAux seen (l ++ l2)
        = l ++ dedupFirstAux (l.reverse ++ seen) l2
  | [], seen, l2, _, _ => by simp
  | x :: rest, seen, l2, hnd, h => by
    have hnd' : x ∉ rest ∧ rest.Nodup := List.nodup_cons.mp hnd
    have hx : seen.contains x = false := h x (List.mem_cons_self x rest)
    have hseen2 : ∀ y ∈ rest, (x :: seen).contains y = false := by
      intro y hy
      have hyx : (y == x) = false := by
        rw [beq_eq_false_iff_ne]
        intro hb
        exact hnd'.1 (hb ▸ hy)
      have hys : seen.contains y = false := h y (List.mem_cons_of_mem _ hy)
      have hyxm : ¬y = x := by simpa using hyx
      have hysm : y ∉ seen := by simpa using hys
      simp [List.contains_cons, hyxm, hysm]
    have ih := dedupFirstAux_append_of_nodup rest (x :: seen) l2 hnd'.2 hseen2
    show dedupFirstAux seen (x :: (rest ++ l2))
      = (x :: rest) ++ dedupFirstAux ((x :: rest).reverse ++ seen) l2
    simp only [dedupFirstAux, hx, Bool.false_eq_true, if_false]
    rw [ih]
    simp [List.reverse_cons, List.append_assoc]
  termination_by l => l.length

/-- Everything deduplicated was in the input. -/
theorem dedupTagsAux_subset :
    ∀ (l seen : List AggTag) (x : AggTag),
      x ∈ dedupTagsAux seen l → x ∈ l
  | [], _, x, hx => absurd hx (List.not_mem_nil x)
  | t :: rest, seen, x, hx => by
    by_cases h : seen.contains t = true
    · simp only [dedupTagsAux, h, if_true] at hx
      exact List.mem_cons_of_mem _ (dedupTagsAux_subset rest seen x hx)
    · simp only [dedupTagsAux, h, if_false] at hx
      rcases List.mem_cons.mp hx with he | hm
      · exact he ▸ List.mem_cons_self t rest
      · exact List.mem_cons_of_mem _ (dedupTagsAux_subset rest (t :: seen) x hm)

/-- An unseen input member survives deduplication. -/
theorem mem_dedupTagsAux :
    ∀ (l seen : List AggTag) (x : AggTag),
      x ∈ l → seen.contains x = false → x ∈ dedupTagsAux seen l
  | [], _, x, hx, _ => absurd hx (List.not_mem_nil x)
  | t :: rest, seen, x, hx, hseen => by
    by_cases he : x = t
    · subst he
      simp only [dedupTagsAux, hseen, Bool.false_eq_true, if_false]
      exact List.mem_cons_self x _
    · have hm : x ∈ rest := by
        rcases List.mem_cons.mp hx with h1 | h1
        · exact absurd h1 he
        · exact h1
      by_cases hc : seen.contains t = true
      · simp only [dedupTagsAux, hc, if_true]
        exact mem_dedupTagsAux rest seen x hm hseen
      · simp only [dedupTagsAux, hc, if_false]
        apply List.mem_cons_of_mem
        apply mem_dedupTagsAux rest (t :: seen) x hm
        simp only [List.contains_cons, Bool.or_eq_false_iff]
        constructor
        · rw [beq_eq_false_iff_ne]
          exact he
        · exact hseen

/-- Well-formedness of a decoded asset table with its declared tag names,
under which the encode direction is faithful: at least one row, a
rectangular table, duplicate-free column names drawn from the decode's
valid set, locations present and never missing, declared tag columns
present and never missing, no column entirely missing, and tag categories
that do not collide with the fixed column vocabulary. -/
structure WellFormedDecode (tagnames : List String) (tbl : DFrame) : Prop where
  index_ne : tbl.index ≠ []
  len : ∀ c ∈ tbl.cols, c.cells.length = tbl.index.length
  names_nodup : tbl.colNames.Nodup
  names_valid : ∀ c ∈ tbl.cols, c.name ∈ valid_cols tagnames
  tags_nodup : tagnames.Nodup
  tags_present : ∀ t ∈ tagnames, t ∈ tbl.colNames
  longitude_present : "longitude" ∈ tbl.colNames
  latitude_present : "latitude" ∈ tbl.colNames
  loc_tag_some : ∀ c ∈ tbl.cols,
    (c.name = "longitude" ∨ c.name = "latitude" ∨ c.name ∈ tagnames) →
    ∀ x ∈ c.cells, x.isSome = true
  not_all_missing : ∀ c ∈ tbl.cols,
    ¬(c.cells.all (fun x => x.isNone) = true)
  tags_fresh : ∀ t ∈ tagnames, t ∉ internalValueNames
    ∧ t ∉ ASSETS_COLS_MAPPING.map (·.1)
    ∧ ¬t = "longitude" ∧ ¬t = "latitude" ∧ ¬t = "lon" ∧ ¬t = "lat"

/-- An all-present non-empty column is not all-missing. -/
theorem not_allNone_of_some (c : Col)
    (hs : ∀ x ∈ c.cells, x.isSome = true) (hne : c.cells ≠ []) :
    ¬(c.cells.all (fun x => x.isNone) = true) := by
  intro hall
  cases hcell : c.cells with
  | nil => exact hne hcell
  | cons x rest =>
    have h1 := (List.all_eq_true.mp hall) x
      (hcell ▸ List.mem_cons_self x rest)
    have h2 := hs x (hcell ▸ List.mem_cons_self x rest)
    cases x <;> simp_all

/-- Lookup succeeds on a key of the mapping. -/
theorem assocFind_isSome_of_mem_keys (l : List (String × String))
    (k : String) (h : k ∈ l.map (·.1)) : (assocFind l k).isSome = true := by
  rcases List.mem_map.mp h with ⟨kv, hkv, hk⟩
  unfold assocFind
  cases hf : l.find? (fun p => p.1 == k) with
  | some p => rfl
  | none =>
    exfalso
    exact (List.find?_eq_none.mp hf kv hkv) (beq_iff_eq.mpr hk)

/-- Association lookup over an append searches left to right. -/
theorem assocFind_append_left (l1 l2 : List (String × String)) (k : String)
    (h : (assocFind l1 k).isSome = true) :
    assocFind (l1 ++ l2) k = assocFind l1 k := by
  unfold assocFind at h ⊢
  rw [find?_append_eq]
  cases hf : l1.find? (fun p => p.1 == k) with
  | some p => rfl
  | none => rw [hf] at h; simp at h

/-- Association lookup falls through to the right of an append when the
key is absent on the left. -/
theorem assocFind_append_right (l1 l2 : List (String × String)) (k : String)
    (h : k ∉ l1.map (·.1)) :
    assocFind (l1 ++ l2) k = assocFind l2 k := by
  unfold assocFind
  rw [find?_append_eq]
  cases hf : l1.find? (fun p => p.1 == k) with
  | some p =>
    exfalso
    have hp := List.find?_some hf
    exact h ((beq_iff_eq.mp hp) ▸ List.mem_map_of_mem (·.1) (List.mem_of_find?_eq_some hf))
  | none => rfl

/-- The per-field content of each persisted asset. -/
theorem assetField_persist (tbl : DFrame) (tagnames : List String)
    (i : Nat) (oid : String) :
    ∀ f ∈ internalValueNames,
      assetField (persistAsset tbl tagnames i oid) f = rowCell tbl f i := by
  intro f hf
  have hf9 : f = "taxonomy_concept" ∨ f = "buildingcount"
      ∨ f = "contentsvalue" ∨ f = "dayoccupancy" ∨ f = "nightoccupancy"
      ∨ f = "transitoccupancy" ∨ f = "structuralvalue"
      ∨ f = "nonstructuralvalue" ∨ f = "businessinterruptionvalue" := by
    simpa [internalValueNames, ASSETS_COLS_MAPPING] using hf
  rcases hf9 with h|h|h|h|h|h|h|h|h <;> (subst h; rfl)

/-- The `assets_df` fragment of the persisted assets reads the table's
internal value columns position-wise. -/
theorem assetsDfCols_persist (tbl : DFrame) (tagnames : List String) :
    assetsDfCols (persistedAssets tbl tagnames)
      = internalValueNames.map (fun f =>
          ⟨f, (List.range tbl.index.length).map (fun i => rowCell tbl f i)⟩) := by
  unfold assetsDfCols persistedAssets
  apply List.map_congr_left
  intro f hf
  rw [List.map_map]
  refine congrArg (Col.mk f) ?_
  apply List.map_congr_left
  intro i _
  exact assetField_persist tbl tagnames i _ f hf

/-- The `sites_df` fragment of the persisted assets reads the table's
location columns position-wise. -/
theorem sitesDfCols_persist (tbl : DFrame) (tagnames : List String) :
    sitesDfCols (persistedAssets tbl tagnames)
      = [⟨"longitude", (List.range tbl.index.length).map
            (fun i => some ((rowCell tbl "longitude" i).getD ""))⟩,
         ⟨"latitude", (List.range tbl.index.length).map
            (fun i => some ((rowCell tbl "latitude" i).getD ""))⟩] := by
  unfold sitesDfCols persistedAssets
  rw [List.map_map, List.map_map]
  rfl

/-- A present tag cell for every declared tag name at every row. -/
theorem rowCell_tag_isSome (tbl : DFrame) (tagnames : List String)
    (hwf : WellFormedDecode tagnames tbl) (t : String) (ht : t ∈ tagnames)
    (i : Nat) (hi : i < tbl.index.length) :
    (rowCell tbl t i).isSome = true := by
  rcases List.mem_map.mp (hwf.tags_present t ht) with ⟨c, hc, hcn⟩
  subst hcn
  exact rowCell_isSome tbl c i hwf.names_nodup hc
    (hwf.loc_tag_some c hc (Or.inr (Or.inr ht)))
    ((hwf.len c hc).symm ▸ hi)

/-- The tag list of each persisted asset: one tag per declared name, in
declaration order. -/
theorem persistAsset_tags (tbl : DFrame) (tagnames : List String)
    (hwf : WellFormedDecode tagnames tbl) (i : Nat)
    (hi : i < tbl.index.length) (oid : String) :
    (persistAsset tbl tagnames i oid).aggregationtags
      = tagnames.map (fun t => AggTag.mk t ((rowCell tbl t i).getD "")) := by
  apply filterMap_tags_eq_map
  intro t ht
  exact rowCell_tag_isSome tbl tagnames hwf t ht i hi

/-- The per-row tag dict of each persisted asset. -/
theorem rowTagDict_persist (tbl : DFrame) (tagnames : List String)
    (hwf : WellFormedDecode tagnames tbl) (i : Nat)
    (hi : i < tbl.index.length) (oid : String) :
    rowTagDict (persistAsset tbl tagnames i oid)
      = tagnames.map (fun t => (t, (rowCell tbl t i).getD "")) := by
  unfold rowTagDict
  rw [persistAsset_tags tbl tagnames hwf i hi oid, List.map_map]
  apply dictOf_of_nodup
  rw [List.map_map]
  show (tagnames.map (fun t => t)).Nodup
  simpa using hwf.tags_nodup

/-- The tag key list of each persisted asset equals the declared names. -/
theorem rowTagDict_keys_persist (tbl : DFrame) (tagnames : List String)
    (hwf : WellFormedDecode tagnames tbl) (i : Nat)
    (hi : i < tbl.index.length) (oid : String) :
    (rowTagDict (persistAsset tbl tagnames i oid)).map (·.1) = tagnames := by
  rw [rowTagDict_persist tbl tagnames hwf i hi oid, List.map_map]
  show tagnames.map (fun t => t) = tagnames
  simp

/-- The observed tag categories across the persisted assets are exactly
the declared tag names, in declaration order. -/
theorem tagTypes_persist (tbl : DFrame) (tagnames : List String)
    (hwf : WellFormedDecode tagnames tbl) :
    tagTypes (persistedAssets tbl tagnames) = tagnames := by
  have hkeys : ∀ a ∈ persistedAssets tbl tagnames,
      (rowTagDict a).map (·.1) = tagnames := by
    intro a ha
    rcases List.mem_map.mp ha with ⟨i, hi, hai⟩
    have hilt : i < tbl.index.length := List.mem_range.mp hi
    rw [← hai]
    exact rowTagDict_keys_persist tbl tagnames hwf i hilt _
  unfold tagTypes
  cases hassets : persistedAssets tbl tagnames with
  | nil =>
    exfalso
    have hlen := congrArg List.length hassets
    simp only [persistedAssets, List.length_map, List.length_range,
      List.length_nil] at hlen
    exact hwf.index_ne (List.length_eq_zero.mp hlen)
  | cons a rest =>
    rw [List.flatMap_cons]
    have ha : (rowTagDict a).map (·.1) = tagnames :=
      hkeys a (hassets ▸ List.mem_cons_self a rest)
    rw [ha]
    rw [dedupFirstAux_append_of_nodup tagnames [] _ hwf.tags_nodup
      (fun x _ => rfl)]
    have hrest : dedupFirstAux (tagnames.reverse ++ [])
        (rest.flatMap (fun a => (rowTagDict a).map (·.1))) = [] := by
      apply dedupFirstAux_nil_of_mem
      intro x hx
      rcases List.mem_flatMap.mp hx with ⟨b, hb, hxb⟩
      have hbtags := hkeys b (hassets ▸ List.mem_cons_of_mem a hb)
      rw [hbtags] at hxb
      exact List.elem_eq_true_of_mem
        (List.mem_append_left [] (List.mem_reverse.mpr hxb))
    rw [hrest]
    simp

/-- The `aggregationtags_df` fragment reads the table's tag columns
position-wise. -/
theorem tagsDfCols_persist (tbl : DFrame) (tagnames : List String)
    (hwf : WellFormedDecode tagnames tbl) :
    tagsDfCols (persistedAssets tbl tagnames)
      = tagnames.map (fun t =>
          ⟨t, (List.range tbl.index.length).map
            (fun i => rowCell tbl t i)⟩) := by
  unfold tagsDfCols
  rw [tagTypes_persist tbl tagnames hwf]
  apply List.map_congr_left
  intro t ht
  refine congrArg (Col.mk t) ?_
  show (persistedAssets tbl tagnames).map (fun a => tagCell a t) = _
  unfold persistedAssets
  rw [List.map_map]
  apply List.map_congr_left
  intro i hi
  have hilt : i < tbl.index.length := List.mem_range.mp hi
  show tagCell (persistAsset tbl tagnames i ((tbl.index.get? i).getD "")) t
    = rowCell tbl t i
  unfold tagCell
  rw [rowTagDict_persist tbl tagnames hwf i hilt _]
  rw [assocFind_map_self (fun t' => (rowCell tbl t' i).getD "") tagnames t ht]
  rcases Option.isSome_iff_exists.mp
    (rowCell_tag_isSome tbl tagnames hwf t ht i hilt) with ⟨v, hv⟩
  rw [hv]
  rfl

/-- The selector of the persisted assets is the plain concatenation of
the location pair, the inverse asset bijection and the identity pairs of
the declared tag names. -/
theorem selectorList_persist (tbl : DFrame) (tagnames : List String)
    (hwf : WellFormedDecode tagnames tbl) :
    selectorList (persistedAssets tbl tagnames)
      = ([("longitude", "lon"), ("latitude", "lat")]
          ++ ASSETS_COLS_MAPPING.map (fun kv => (kv.2, kv.1)))
        ++ tagnames.map (fun t => (t, t)) := by
  unfold selectorList
  rw [tagTypes_persist tbl tagnames hwf]
  apply dictOf_of_nodup
  rw [List.map_append, List.nodup_append]
  refine ⟨by decide, ?_, ?_⟩
  · have hmap : (tagnames.map (fun t => (t, t))).map (·.1)
        = tagnames.map (fun t => t) := by
      rw [List.map_map]
      rfl
    rw [hmap]
    simpa using hwf.tags_nodup
  · intro x hx hxtag
    have hxt : x ∈ tagnames := by
      rcases List.mem_map.mp hxtag with ⟨p, hp, hpx⟩
      rcases List.mem_map.mp hp with ⟨t0, ht0, htp⟩
      rw [← hpx, ← htp]
      exact ht0
    have hf := hwf.tags_fresh x hxt
    have hx11 : x = "longitude" ∨ x = "latitude" ∨ x ∈ internalValueNames := by
      have : x ∈ (["longitude", "latitude"]
          ++ ASSETS_COLS_MAPPING.map (·.2)) := by
        revert hx
        show x ∈ ((([("longitude", "lon"), ("latitude", "lat")] : List (String × String))
            ++ ASSETS_COLS_MAPPING.map (fun kv => (kv.2, kv.1))).map (·.1)) → _
        intro hx
        rw [List.map_append, List.map_map] at hx
        rcases List.mem_append.mp hx with h1 | h1
        · apply List.mem_append_left
          simpa using h1
        · apply List.mem_append_right
          show x ∈ ASSETS_COLS_MAPPING.map (·.2)
          rcases List.mem_map.mp h1 with ⟨kv, hkv, hkx⟩
          rw [← hkx]
          exact List.mem_map_of_mem (·.2) hkv
      rcases List.mem_append.mp this with h1 | h1
      · rcases List.mem_cons.mp h1 with h2 | h2
        · exact Or.inl h2
        · exact Or.inr (Or.inl (by simpa using h2))
      · exact Or.inr (Or.inr h1)
    rcases hx11 with h | h | h
    · exact hf.2.2.1 h
    · exact hf.2.2.2.1 h
    · exact hf.1 h

/-- The fixed part of the encode-side renaming: the location pair and the
inverse asset bijection. -/
def encodeRenameBase : List (String × String) :=
  [("longitude", "lon"), ("latitude", "lat")]
    ++ ASSETS_COLS_MAPPING.map (fun kv => (kv.2, kv.1))

/-- `toExternalName` looks up the fixed renaming table. -/
theorem toExternalName_eq (nm : String) :
    toExternalName nm = (assocFind encodeRenameBase nm).getD nm := rfl

/-- The keys of the fixed renaming table. -/
theorem mem_base_keys (x : String)
    (hx : x ∈ encodeRenameBase.map (·.1)) :
    x = "longitude" ∨ x = "latitude" ∨ x ∈ internalValueNames := by
  rw [encodeRenameBase, List.map_append, List.map_map] at hx
  rcases List.mem_append.mp hx with h1 | h1
  · rcases List.mem_cons.mp h1 with h2 | h2
    · exact Or.inl h2
    · exact Or.inr (Or.inl (by simpa using h2))
  · refine Or.inr (Or.inr ?_)
    rcases List.mem_map.mp h1 with ⟨kv, hkv, hkx⟩
    rw [← hkx]
    exact List.mem_map_of_mem (·.2) hkv

/-- Lookup of an absent key fails. -/
theorem assocFind_eq_none (l : List (String × String)) (k : String)
    (h : k ∉ l.map (·.1)) : assocFind l k = none := by
  have hf : l.find? (fun p => p.1 == k) = none := by
    rw [List.find?_eq_none]
    intro kv hkv hb
    exact h (beq_iff_eq.mp hb ▸ List.mem_map_of_mem (·.1) hkv)
  unfold assocFind
  rw [hf]
  rfl

/-- A fresh tag category is not a key of the fixed renaming table. -/
theorem tag_not_in_base (t : String) (h1 : t ∉ internalValueNames)
    (h2 : ¬t = "longitude") (h3 : ¬t = "latitude") :
    t ∉ encodeRenameBase.map (·.1) := by
  intro hmem
  rcases mem_base_keys t hmem with h | h | h
  · exact h2 h
  · exact h3 h
  · exact h1 h

/-- The renaming facts of the nine internal value names, computed. -/
theorem internal_rename_facts :
    ∀ f ∈ internalValueNames,
      (assocFind encodeRenameBase f).isSome = true ∧
      (assocFind encodeRenameBase f).getD f = toExternalName f ∧
      toExternalName f ∈ encodeRenameBase.map (·.2) ∧
      toExternalName f ∈ ASSETS_COLS_MAPPING.map (·.1) := by
  decide

/-- The renaming facts of the location columns, computed. -/
theorem location_rename_facts :
    assocFind encodeRenameBase "longitude" = some "lon"
      ∧ toExternalName "longitude" = "lon"
      ∧ "lon" ∈ encodeRenameBase.map (·.2)
      ∧ assocFind encodeRenameBase "latitude" = some "lat"
      ∧ toExternalName "latitude" = "lat"
      ∧ "lat" ∈ encodeRenameBase.map (·.2) := by
  decide

/-- The encoded tag-name dict's key set is exactly the declared tag-name
set. -/
theorem persist_collection_tag_keys (tbl : DFrame) (tagnames : List String)
    (hwf : WellFormedDecode tagnames tbl) (t : String) :
    t ∈ (dictOf ((dedupTagsAux []
        ((persistedAssets tbl tagnames).flatMap (·.aggregationtags))).map
          (fun g => (g.type, g.name)))).map (·.1)
      ↔ t ∈ tagnames := by
  rw [mem_keys_dictOf]
  constructor
  · intro h
    rcases List.mem_map.mp h with ⟨p, hp, hpt⟩
    rcases List.mem_map.mp hp with ⟨g, hg, hgp⟩
    have hgmem := dedupTagsAux_subset _ [] g hg
    rcases List.mem_flatMap.mp hgmem with ⟨a, ha, hga⟩
    rcases List.mem_map.mp ha with ⟨i, hi, hai⟩
    have hilt : i < tbl.index.length := List.mem_range.mp hi
    rw [← hai, persistAsset_tags tbl tagnames hwf i hilt _] at hga
    rcases List.mem_map.mp hga with ⟨t0, ht0, hgt⟩
    have hteq : t = t0 := by rw [← hpt, ← hgp, ← hgt]
    rw [hteq]
    exact ht0
  · intro ht
    have hnpos : 0 < tbl.index.length := List.length_pos.mpr hwf.index_ne
    have h0 : (0 : Nat) ∈ List.range tbl.index.length :=
      List.mem_range.mpr hnpos
    have hamem : persistAsset tbl tagnames 0 ((tbl.index.get? 0).getD "")
        ∈ persistedAssets tbl tagnames := by
      unfold persistedAssets
      exact List.mem_map_of_mem _ h0
    have hg : AggTag.mk t ((rowCell tbl t 0).getD "")
        ∈ (persistAsset tbl tagnames 0
            ((tbl.index.get? 0).getD "")).aggregationtags := by
      rw [persistAsset_tags tbl tagnames hwf 0 hnpos _]
      exact List.mem_map_of_mem _ ht
    have hflat : AggTag.mk t ((rowCell tbl t 0).getD "")
        ∈ (persistedAssets tbl tagnames).flatMap (·.aggregationtags) :=
      List.mem_flatMap.mpr ⟨_, hamem, hg⟩
    have hdedup := mem_dedupTagsAux _ [] _ hflat rfl
    have hpair := List.mem_map_of_mem (fun g => (g.type, g.name)) hdedup
    have := List.mem_map_of_mem (·.1) hpair
    exact this

/-- The selector of the persisted assets, phrased with the fixed table. -/
theorem selectorList_persist_base (tbl : DFrame) (tagnames : List String)
    (hwf : WellFormedDecode tagnames tbl) :
    selectorList (persistedAssets tbl tagnames)
      = encodeRenameBase ++ tagnames.map (fun t => (t, t)) :=
  selectorList_persist tbl tagnames hwf

/-- Direction one of the table comparison: every fragment column that is
not entirely missing renames to the external name of a decoded column and
carries exactly its cells. -/
theorem pre_col_relate (tbl : DFrame) (tagnames : List String)
    (hwf : WellFormedDecode tagnames tbl) :
    ∀ c0 ∈ assetsDfCols (persistedAssets tbl tagnames)
        ++ sitesDfCols (persistedAssets tbl tagnames)
        ++ tagsDfCols (persistedAssets tbl tagnames),
      ¬(c0.cells.all (fun x => x.isNone) = true) →
      ∃ d ∈ tbl.cols,
        (renameBySelector (selectorList (persistedAssets tbl tagnames))
            c0).name = toExternalName d.name
          ∧ c0.cells = d.cells := by
  rw [assetsDfCols_persist, sitesDfCols_persist,
    tagsDfCols_persist tbl tagnames hwf,
    selectorList_persist_base tbl tagnames hwf]
  intro c0 hc0 hna
  rcases List.mem_append.mp hc0 with h12 | h3
  · rcases List.mem_append.mp h12 with h1 | h2
    · -- assets_df fragment
      rcases List.mem_map.mp h1 with ⟨f, hf, hc0f⟩
      rw [← hc0f] at hna ⊢
      by_cases hmem : f ∈ tbl.colNames
      · rcases List.mem_map.mp hmem with ⟨d, hd, hdn⟩
        refine ⟨d, hd, ?_, ?_⟩
        · show (assocFind (encodeRenameBase
              ++ tagnames.map (fun t => (t, t))) f).getD f
            = toExternalName d.name
          rw [assocFind_append_left _ _ f (internal_rename_facts f hf).1,
            (internal_rename_facts f hf).2.1, hdn]
        · show (List.range tbl.index.length).map
              (fun i => rowCell tbl f i) = d.cells
          rw [← hdn, show tbl.index.length = d.cells.length from
            (hwf.len d hd).symm]
          exact range_map_rowCell tbl d hwf.names_nodup hd
      · exfalso
        apply hna
        rw [List.all_eq_true]
        intro x hx
        rcases List.mem_map.mp hx with ⟨i, _, hxi⟩
        rw [← hxi]
        simp [rowCell, tableCol_eq_none tbl f hmem]
    · -- sites_df fragment
      rcases List.mem_cons.mp h2 with he | h2b
      · rw [he] at hna ⊢
        rcases List.mem_map.mp hwf.longitude_present with ⟨d, hd, hdn⟩
        refine ⟨d, hd, ?_, ?_⟩
        · show (assocFind (encodeRenameBase
              ++ tagnames.map (fun t => (t, t))) "longitude").getD "longitude"
            = toExternalName d.name
          rw [assocFind_append_left _ _ "longitude"
              (by rw [location_rename_facts.1]; rfl),
            location_rename_facts.1, hdn, location_rename_facts.2.1]
          rfl
        · show (List.range tbl.index.length).map
              (fun i => some ((rowCell tbl "longitude" i).getD "")) = d.cells
          rw [← hdn, show tbl.index.length = d.cells.length from
            (hwf.len d hd).symm]
          exact range_map_rowCell_some tbl d hwf.names_nodup hd
            (hwf.loc_tag_some d hd (Or.inl hdn))
      · rcases List.mem_cons.mp h2b with he | habs
        · rw [he] at hna ⊢
          rcases List.mem_map.mp hwf.latitude_present with ⟨d, hd, hdn⟩
          refine ⟨d, hd, ?_, ?_⟩
          · show (assocFind (encodeRenameBase
                ++ tagnames.map (fun t => (t, t))) "latitude").getD "latitude"
              = toExternalName d.name
            rw [assocFind_append_left _ _ "latitude"
                (by rw [location_rename_facts.2.2.2.1]; rfl),
              location_rename_facts.2.2.2.1, hdn,
              location_rename_facts.2.2.2.2.1]
            rfl
          · show (List.range tbl.index.length).map
                (fun i => some ((rowCell tbl "latitude" i).getD "")) = d.cells
            rw [← hdn, show tbl.index.length = d.cells.length from
              (hwf.len d hd).symm]
            exact range_map_rowCell_some tbl d hwf.names_nodup hd
              (hwf.loc_tag_some d hd (Or.inr (Or.inl hdn)))
        · exact absurd habs (List.not_mem_nil c0)
  · -- aggregationtags_df fragment
    rcases List.mem_map.mp h3 with ⟨t, ht, hc0t⟩
    rw [← hc0t] at hna ⊢
    have hfresh := hwf.tags_fresh t ht
    have hnotbase : t ∉ encodeRenameBase.map (·.1) :=
      tag_not_in_base t hfresh.1 hfresh.2.2.1 hfresh.2.2.2.1
    rcases List.mem_map.mp (hwf.tags_present t ht) with ⟨d, hd, hdn⟩
    refine ⟨d, hd, ?_, ?_⟩
    · show (assocFind (encodeRenameBase
          ++ tagnames.map (fun t => (t, t))) t).getD t
        = toExternalName d.name
      rw [assocFind_append_right _ _ t hnotbase,
        assocFind_map_self (fun x => x) tagnames t ht, hdn,
        toExternalName_eq, assocFind_eq_none _ _ (hdn ▸ hnotbase)]
      rfl
    · show (List.range tbl.index.length).map
          (fun i => rowCell tbl t i) = d.cells
      rw [← hdn, show tbl.index.length = d.cells.length from
        (hwf.len d hd).symm]
      exact range_map_rowCell tbl d hwf.names_nodup hd

/-- Direction two of the table comparison: every decoded column has a
fragment column with the same cells whose renamed name is its external
name and is among the selection requests. -/
theorem tbl_col_covered (tbl : DFrame) (tagnames : List String)
    (hwf : WellFormedDecode tagnames tbl) :
    ∀ d ∈ tbl.cols,
      ∃ c0 ∈ assetsDfCols (persistedAssets tbl tagnames)
          ++ sitesDfCols (persistedAssets tbl tagnames)
          ++ tagsDfCols (persistedAssets tbl tagnames),
        (renameBySelector (selectorList (persistedAssets tbl tagnames))
            c0).name = toExternalName d.name
          ∧ c0.cells = d.cells
          ∧ (renameBySelector (selectorList (persistedAssets tbl tagnames))
              c0).name
            ∈ (selectorList (persistedAssets tbl tagnames)).map (·.2) := by
  rw [assetsDfCols_persist, sitesDfCols_persist,
    tagsDfCols_persist tbl tagnames hwf,
    selectorList_persist_base tbl tagnames hwf]
  intro d hd
  have hvalid := hwf.names_valid d hd
  rw [valid_cols] at hvalid
  rcases List.mem_append.mp hvalid with h12 | hloc
  · rcases List.mem_append.mp h12 with hint | htag
    · -- an internal value column
      refine ⟨⟨d.name, (List.range tbl.index.length).map
          (fun i => rowCell tbl d.name i)⟩,
        List.mem_append_left _ (List.mem_append_left _
          (List.mem_map_of_mem _ hint)), ?_, ?_, ?_⟩
      · show (assocFind (encodeRenameBase
            ++ tagnames.map (fun t => (t, t))) d.name).getD d.name
          = toExternalName d.name
        rw [assocFind_append_left _ _ d.name
            (internal_rename_facts d.name hint).1,
          (internal_rename_facts d.name hint).2.1]
      · show (List.range tbl.index.length).map
            (fun i => rowCell tbl d.name i) = d.cells
        rw [show tbl.index.length = d.cells.length from
          (hwf.len d hd).symm]
        exact range_map_rowCell tbl d hwf.names_nodup hd
      · show (assocFind (encodeRenameBase
            ++ tagnames.map (fun t => (t, t))) d.name).getD d.name
          ∈ (encodeRenameBase ++ tagnames.map (fun t => (t, t))).map (·.2)
        rw [assocFind_append_left _ _ d.name
            (internal_rename_facts d.name hint).1,
          (internal_rename_facts d.name hint).2.1, List.map_append]
        exact List.mem_append_left _
          (internal_rename_facts d.name hint).2.2.1
    · -- a declared tag column
      have hfresh := hwf.tags_fresh d.name htag
      have hnotbase : d.name ∉ encodeRenameBase.map (·.1) :=
        tag_not_in_base d.name hfresh.1 hfresh.2.2.1 hfresh.2.2.2.1
      have hname : (assocFind (encodeRenameBase
          ++ tagnames.map (fun t => (t, t))) d.name).getD d.name = d.name := by
        rw [assocFind_append_right _ _ d.name hnotbase,
          assocFind_map_self (fun x => x) tagnames d.name htag]
        rfl
      refine ⟨⟨d.name, (List.range tbl.index.length).map
          (fun i => rowCell tbl d.name i)⟩,
        List.mem_append_right _ (List.mem_map_of_mem _ htag), ?_, ?_, ?_⟩
      · show (assocFind (encodeRenameBase
            ++ tagnames.map (fun t => (t, t))) d.name).getD d.name
          = toExternalName d.name
        rw [hname, toExternalName_eq,
          assocFind_eq_none _ _ hnotbase]
        rfl
      · show (List.range tbl.index.length).map
            (fun i => rowCell tbl d.name i) = d.cells
        rw [show tbl.index.length = d.cells.length from
          (hwf.len d hd).symm]
        exact range_map_rowCell tbl d hwf.names_nodup hd
      · show (assocFind (encodeRenameBase
            ++ tagnames.map (fun t => (t, t))) d.name).getD d.name
          ∈ (encodeRenameBase ++ tagnames.map (fun t => (t, t))).map (·.2)
        rw [hname, List.map_append]
        exact List.mem_append_right _
          (List.mem_map.mpr ⟨(d.name, d.name),
            List.mem_map_of_mem _ htag, rfl⟩)
  · -- a location column
    rcases List.mem_cons.mp hloc with hlon | hloc2
    · refine ⟨⟨"longitude", (List.range tbl.index.length).map
          (fun i => some ((rowCell tbl "longitude" i).getD ""))⟩,
        List.mem_append_left _ (List.mem_append_right _
          (List.mem_cons_self _ _)), ?_, ?_, ?_⟩
      · show (assocFind (encodeRenameBase
            ++ tagnames.map (fun t => (t, t))) "longitude").getD "longitude"
          = toExternalName d.name
        rw [assocFind_append_left _ _ "longitude"
            (by rw [location_rename_facts.1]; rfl),
          location_rename_facts.1, hlon, location_rename_facts.2.1]
        rfl
      · show (List.range tbl.index.length).map
            (fun i => some ((rowCell tbl "longitude" i).getD "")) = d.cells
        rw [← hlon, show tbl.index.length = d.cells.length from
          (hwf.len d hd).symm]
        exact range_map_rowCell_some tbl d hwf.names_nodup hd
          (hwf.loc_tag_some d hd (Or.inl hlon))
      · show (assocFind (encodeRenameBase
            ++ tagnames.map (fun t => (t, t))) "longitude").getD "longitude"
          ∈ (encodeRenameBase ++ tagnames.map (fun t => (t, t))).map (·.2)
        rw [assocFind_append_left _ _ "longitude"
            (by rw [location_rename_facts.1]; rfl),
          location_rename_facts.1, List.map_append]
        exact List.mem_append_left _ location_rename_facts.2.2.1
    · rcases List.mem_cons.mp hloc2 with hlat | habs
      · refine ⟨⟨"latitude", (List.range tbl.index.length).map
            (fun i => some ((rowCell tbl "latitude" i).getD ""))⟩,
          List.mem_append_left _ (List.mem_append_right _
            (List.mem_cons_of_mem _ (List.mem_cons_self _ _))), ?_, ?_, ?_⟩
        · show (assocFind (encodeRenameBase
              ++ tagnames.map (fun t => (t, t))) "latitude").getD "latitude"
            = toExternalName d.name
          rw [assocFind_append_left _ _ "latitude"
              (by rw [location_rename_facts.2.2.2.1]; rfl),
            location_rename_facts.2.2.2.1, hlat,
            location_rename_facts.2.2.2.2.1]
          rfl
        · show (List.range tbl.index.length).map
              (fun i => some ((rowCell tbl "latitude" i).getD "")) = d.cells
          rw [← hlat, show tbl.index.length = d.cells.length from
            (hwf.len d hd).symm]
          exact range_map_rowCell_some tbl d hwf.names_nodup hd
            (hwf.loc_tag_some d hd (Or.inr (Or.inl hlat)))
        · show (assocFind (encodeRenameBase
              ++ tagnames.map (fun t => (t, t))) "latitude").getD "latitude"
            ∈ (encodeRenameBase ++ tagnames.map (fun t => (t, t))).map (·.2)
          rw [assocFind_append_left _ _ "latitude"
              (by rw [location_rename_facts.2.2.2.1]; rfl),
            location_rename_facts.2.2.2.1, List.map_append]
          exact List.mem_append_left _ location_rename_facts.2.2.2.2.2
      · exact absurd habs (List.not_mem_nil _)

/-- Core of the amended round trip: persisting a well-formed decoded
exposure model and re-encoding it reproduces the cost-type list, the
tag-name set and the asset table up to column order, zero-fill and the
internal-to-external renaming. -/
theorem roundtrip_core (m : ExposureModelRec) (tagnames : List String)
    (tbl : DFrame) (hwf : WellFormedDecode tagnames tbl) :
    ∃ enc, create_exposure_input (persistCollection m tagnames tbl)
        = Except.ok enc ∧
      enc.1 = m.costtypes ∧
      (∀ t : String, t ∈ enc.2.1.map (·.1) ↔ t ∈ tagnames) ∧
      tableEqUpToOrderZeroFillRename enc.2.2.cols tbl.cols = true := by
  have hemp : (persistedAssets tbl tagnames).isEmpty = false := by
    have hlen : (persistedAssets tbl tagnames).length = tbl.index.length := by
      simp [persistedAssets]
    cases hassets : persistedAssets tbl tagnames with
    | nil =>
      exfalso
      rw [hassets] at hlen
      exact hwf.index_ne (List.length_eq_zero.mp hlen.symm)
    | cons a rest => rfl
  have hadf : assets_to_dataframe (persistedAssets tbl tagnames)
      = Except.ok ⟨"id", (persistedAssets tbl tagnames).map (·._oid),
          (dropAllNaCols (selectedStage (persistedAssets tbl tagnames))).map
            fillnaZero⟩ := by
    unfold assets_to_dataframe
    rw [if_neg (by simp [hemp])]
  have henc : create_exposure_input (persistCollection m tagnames tbl)
      = Except.ok (m.costtypes,
          dictOf ((dedupTagsAux []
            ((persistedAssets tbl tagnames).flatMap
              (·.aggregationtags))).map (fun g => (g.type, g.name))),
          ⟨"id", (persistedAssets tbl tagnames).map (·._oid),
            (dropAllNaCols (selectedStage (persistedAssets tbl tagnames))).map
              fillnaZero⟩) := by
    simp only [create_exposure_input, persistCollection]
    rw [hadf]
    rfl
  refine ⟨_, henc, rfl, ?_, ?_⟩
  · intro t
    exact persist_collection_tag_keys tbl tagnames hwf t
  · show tableEqUpToOrderZeroFillRename
      ((dropAllNaCols (selectedStage (persistedAssets tbl tagnames))).map
        fillnaZero) tbl.cols = true
    unfold tableEqUpToOrderZeroFillRename
    rw [Bool.and_eq_true]
    constructor
    · rw [List.all_eq_true]
      intro c' hc'
      rcases List.mem_map.mp hc' with ⟨c, hcdrop, hcfill⟩
      have hcsp := List.mem_filter.mp hcdrop
      have hnotall : ¬(c.cells.all (fun x => x.isNone) = true) := by
        have hb := hcsp.2
        simp only [Bool.not_eq_true'] at hb
        simp [hb]
      rcases List.mem_flatMap.mp hcsp.1 with ⟨v, hv, hcfil⟩
      rcases List.mem_map.mp (List.mem_filter.mp hcfil).1 with ⟨c0, hc0, hc0r⟩
      have hcells0 : c.cells = c0.cells := by rw [← hc0r]; rfl
      obtain ⟨d, hd, hname, hcells⟩ :=
        pre_col_relate tbl tagnames hwf c0 hc0
          (by rw [← hcells0]; exact hnotall)
      rw [List.any_eq_true]
      refine ⟨d, hd, ?_⟩
      rw [Bool.and_eq_true, beq_iff_eq, beq_iff_eq]
      constructor
      · rw [← hcfill, ← hc0r]
        exact hname
      · rw [← hcfill]
        show c.cells.map (fun x => some (x.getD "0"))
          = d.cells.map zeroFillCell
        rw [hcells0, hcells]
        rfl
    · rw [List.all_eq_true]
      intro d hd
      obtain ⟨c0, hc0, hname, hcells, hreq⟩ :=
        tbl_col_covered tbl tagnames hwf d hd
      have hcellsc : (renameBySelector
          (selectorList (persistedAssets tbl tagnames)) c0).cells
          = d.cells := hcells
      have hallfalse : ((renameBySelector
          (selectorList (persistedAssets tbl tagnames)) c0).cells.all
            (fun x => x.isNone)) = false := by
        rw [hcellsc]
        have := hwf.not_all_missing d hd
        cases hb : d.cells.all (fun x => x.isNone) with
        | true => exact absurd hb this
        | false => rfl
      have hcsel : renameBySelector
          (selectorList (persistedAssets tbl tagnames)) c0
          ∈ selectedStage (persistedAssets tbl tagnames) := by
        unfold selectedStage selectCols
        rw [List.mem_flatMap]
        refine ⟨(renameBySelector
          (selectorList (persistedAssets tbl tagnames)) c0).name, hreq, ?_⟩
        rw [List.mem_filter]
        exact ⟨List.mem_map_of_mem _ hc0, by simp⟩
      have hcdrop : renameBySelector
          (selectorList (persistedAssets tbl tagnames)) c0
          ∈ dropAllNaCols (selectedStage (persistedAssets tbl tagnames)) := by
        rw [dropAllNaCols, List.mem_filter]
        exact ⟨hcsel, by rw [hallfalse]; rfl⟩
      rw [List.any_eq_true]
      refine ⟨fillnaZero (renameBySelector
        (selectorList (persistedAssets tbl tagnames)) c0),
        List.mem_map_of_mem fillnaZero hcdrop, ?_⟩
      rw [Bool.and_eq_true, beq_iff_eq, beq_iff_eq]
      constructor
      · exact hname
      · show (renameBySelector
            (selectorList (persistedAssets tbl tagnames)) c0).cells.map
              (fun x => some (x.getD "0"))
          = d.cells.map zeroFillCell
        rw [hcellsc]
        rfl

/-- C2 as amended (proved). For every exposure document whose decode is
well-formed (non-empty rectangular asset table with duplicate-free
columns, locations and declared tags present and never missing, no column
entirely missing, tag categories not colliding with the fixed
vocabulary), decoding and re-encoding reproduces the cost-type list byte
for byte, the tag-name set, and an asset table equal to the decoded one
up to column ordering, zero-fill of absent numeric fields AND renaming of
every column from its internal decoded name to its external engine name
(`longitude ↦ lon`, `latitude ↦ lat`, the asset bijection for value
columns, tag columns unchanged) — the renaming is the correction the
counterexample forces on the claim. -/
theorem exposure_roundtrip_renamed (doc : ExposureDoc)
    (m : ExposureModelRec) (tagnames : List String) (tbl : DFrame)
    (hdec : parse_exposure doc = (m, tagnames, tbl))
    (hwf : WellFormedDecode tagnames tbl) :
    ∃ enc, exposureRoundtrip doc = Except.ok enc ∧
      enc.1 = m.costtypes ∧
      (∀ t : String, t ∈ enc.2.1.map (·.1) ↔ t ∈ tagnames) ∧
      tableEqUpToOrderZeroFillRename enc.2.2.cols tbl.cols = true := by
  have hrt : exposureRoundtrip doc
      = create_exposure_input (persistCollection m tagnames tbl) := by
    unfold exposureRoundtrip
    rw [hdec]
  rw [hrt]
  exact roundtrip_core m tagnames tbl hwf

/-- Witness for the amended C2 at the concrete document: the round trip
succeeds and reproduces cost types, tag-name set and the table up to
order, zero-fill and renaming. -/
theorem exposure_roundtrip_renamed_witness :
    ∃ enc, exposureRoundtrip docC2 = Except.ok enc ∧
      enc.1 = (parse_exposure docC2).1.costtypes ∧
      (∀ t : String, t ∈ enc.2.1.map (·.1)
        ↔ t ∈ (parse_exposure docC2).2.1) ∧
      tableEqUpToOrderZeroFillRename enc.2.2.cols
        (parse_exposure docC2).2.2.cols = true :=
  exposure_roundtrip_renamed docC2 (parse_exposure docC2).1
    (parse_exposure docC2).2.1 (parse_exposure docC2).2.2 rfl
    ⟨by decide, by decide, by decide, by decide, by decide, by decide,
     by decide, by decide, by decide, by decide, by decide⟩

/-- Witness for the amended C8: on a table with a `lon` column, a junk
column and an internal column, the surviving `longitude` column's name is
in the valid set {mapped internal names, declared tags, longitude,
latitude}. -/
theorem parse_assets_columns_subset_valid_witness :
    (⟨"longitude", [some "7.4"]⟩ : Col).name ∈ valid_cols ["Canton"] :=
  parse_assets_columns_subset_valid
    ⟨"id", ["a1"],
      [⟨"lon", [some "7.4"]⟩, ⟨"junk", [some "x"]⟩,
       ⟨"taxonomy_concept", [some "MUR"]⟩]⟩ ["Canton"]
    ⟨"longitude", [some "7.4"]⟩ (by decide)
